import Mathlib

/-!
Verification of the StarBreaker asset-extraction core against its
specification.  The Rust sources are shallowly embedded: byte streams are
`List Nat` (each element a byte value), multi-byte integers are decoded
little-endian into `Nat`, signed integers are decoded by two's complement
into `Int`, and IEEE-754 `f32`/`f64` fields that the parsers merely move
around (never compute with) are represented by their bit patterns.
Fallible Rust functions returning `Result` become `Except`.
-/

set_option maxRecDepth 4096

namespace StarBreaker

/-- Little-endian interpretation of a byte list. -/
def leNat (bs : List Nat) : Nat :=
  bs.foldr (fun b acc => b + 256 * acc) 0

/-- Little-endian byte list (4 bytes) of a 32-bit value, as produced by
`u32::to_le_bytes`. -/
def le4 (n : Nat) : List Nat :=
  [n % 256, n / 256 % 256, n / 65536 % 256, n / 16777216 % 256]

/-- `bs[off .. off+n)` as a list. -/
def slice (bs : List Nat) (off n : Nat) : List Nat :=
  (bs.drop off).take n

/-- 16-bit little-endian field at an offset of a byte list. -/
def u16at (bs : List Nat) (off : Nat) : Nat := leNat (slice bs off 2)

/-- 32-bit little-endian field at an offset of a byte list. -/
def u32at (bs : List Nat) (off : Nat) : Nat := leNat (slice bs off 4)

/-- 64-bit little-endian field at an offset of a byte list. -/
def u64at (bs : List Nat) (off : Nat) : Nat := leNat (slice bs off 8)

/-- Two's-complement interpretation of a 32-bit value
(`i32::from_le_bytes`). -/
def i32ofNat (n : Nat) : Int :=
  if n < 2 ^ 31 then (n : Int) else (n : Int) - 2 ^ 32

/-- `Read::read_exact` on an in-memory stream: succeeds exactly when `n`
bytes are available starting at `pos`. -/
def readExact (f : List Nat) (pos n : Nat) : Option (List Nat) :=
  if pos + n ≤ f.length then some ((f.drop pos).take n) else none

/-- Errors of `starbreaker_parsers::traits::ParseError`; the human-readable
message payloads are elided, the structured payloads used by the claims are
kept. -/
inductive ParseErr where
  | ioError : ParseErr
  | invalidMagic (expected found : List Nat) : ParseErr
  | unsupportedVersion : ParseErr
  | corruptedData : ParseErr
  | decompressionFailed : ParseErr
  | invalidStructure : ParseErr
  | missingField : ParseErr
  | unsupportedFeature : ParseErr
  | unknownChunkType (t : Nat) : ParseErr
deriving DecidableEq

/-- Decidable equality of `Except` results, used to evaluate the embedded
parsers on concrete inputs. -/
instance {ε α : Type} [DecidableEq ε] [DecidableEq α] :
    DecidableEq (Except ε α) := fun a b =>
  match a, b with
  | .ok x, .ok y =>
    if h : x = y then isTrue (by rw [h])
    else isFalse (fun hc => h (Except.ok.inj hc))
  | .error x, .error y =>
    if h : x = y then isTrue (by rw [h])
    else isFalse (fun hc => h (Except.error.inj hc))
  | .ok _, .error _ => isFalse (fun hc => Except.noConfusion hc)
  | .error _, .ok _ => isFalse (fun hc => Except.noConfusion hc)

/-- `read_exact` lifted into the parser's error monad: a short read is an
I/O error. -/
def readE (f : List Nat) (pos n : Nat) : Except ParseErr (List Nat) :=
  match readExact f pos n with
  | some bs => .ok bs
  | none => .error .ioError

/-- One bit step of the reflected CRC-32 division
(polynomial `0xEDB88320`), as computed by the `crc32fast` crate. -/
def crc32Step (c : Nat) : Nat :=
  if c % 2 = 1 then (c / 2) ^^^ 0xEDB88320 else c / 2

/-- `n` bit steps of the CRC-32 division. -/
def crc32Bits : Nat → Nat → Nat
  | 0, c => c
  | n + 1, c => crc32Bits n (crc32Step c)

/-- Fold one byte into the running CRC-32 state. -/
def crc32Byte (c b : Nat) : Nat := crc32Bits 8 (c ^^^ b % 256)

/-- `P4kCompression::crc32`: standard CRC-32 (IEEE) of a byte sequence. -/
def crc32 (data : List Nat) : Nat :=
  (data.foldl crc32Byte 0xFFFFFFFF) ^^^ 0xFFFFFFFF

/-- `P4kCompression::verify_crc32`. -/
def verify_crc32 (data : List Nat) (expected : Nat) : Bool :=
  crc32 data == expected

/-! ### P4K archive parser (`starbreaker-parsers/src/p4k`) -/

/-- `CompressionMethod` from `p4k/mod.rs`. -/
inductive CompressionMethod where
  | store
  | deflate
  | zstd
  | lz4
  | unknown (v : Nat)
deriving DecidableEq

/-- `CompressionMethod::from(u16)`. -/
def CompressionMethod.fromU16 (value : Nat) : CompressionMethod :=
  if value = 0 then .store
  else if value = 8 then .deflate
  else if value = 93 then .zstd
  else if value = 99 then .lz4
  else .unknown value

/-- The deflate / zstd / lz4 codecs are external crates
(`flate2`, `zstd`, `lz4_flex`); the dispatch takes them as parameters.
None of the verified claims depends on their behaviour. -/
structure CompressionImpls where
  deflate : List Nat → Nat → Except ParseErr (List Nat)
  zstd : List Nat → Nat → Except ParseErr (List Nat)
  lz4 : List Nat → Nat → Except ParseErr (List Nat)

/-- `P4kCompression::decompress` from `p4k/compression.rs`: the `Store` arm
returns the input unchanged, the three codec arms delegate, an unknown
method is an unsupported-feature error. -/
def P4kCompression.decompress (impls : CompressionImpls) (data : List Nat)
    (method : CompressionMethod) (expected_size : Nat) :
    Except ParseErr (List Nat) :=
  match method with
  | .store => .ok data
  | .deflate => impls.deflate data expected_size
  | .zstd => impls.zstd data expected_size
  | .lz4 => impls.lz4 data expected_size
  | .unknown _ => .error .unsupportedFeature

/-- `P4kEntry` from `p4k/entry.rs`.  `path` keeps the raw name bytes
(`String::from_utf8_lossy` is the identity on the ASCII paths the claims
use; lookups compare byte-for-byte). -/
structure P4kEntry where
  path : List Nat
  compression : CompressionMethod
  crc32 : Nat
  compressed_size : Nat
  uncompressed_size : Nat
  local_header_offset : Nat
  flags : Nat
  mod_time : Nat
  mod_date : Nat
  is_encrypted : Bool
  is_directory : Bool
deriving DecidableEq

/-- Loop body of `P4kParser::parse_zip64_extra` (p4k/mod.rs lines
312-369), transcribed with its exact sentinel comparisons: the
uncompressed-size branch tests `0xFFFFFFFF` while the compressed-size and
local-offset branches test `0xFFFFFFF`.  The structural `fuel` only bounds
the iteration count; each pass advances `pos` by at least 4, so the
caller's `extra.length + 1` is never exhausted before the guard fails. -/
def parse_zip64_extra_loop (extra : List Nat)
    (compressed_size uncompressed_size local_offset : Nat) :
    Nat → Nat → Nat → Nat → Nat → Nat × Nat × Nat
  | 0, _, compressed, uncompressed, offset =>
    (compressed, uncompressed, offset)
  | fuel + 1, pos, compressed, uncompressed, offset =>
  if pos + 4 ≤ extra.length then
    let id := u16at extra pos
    let size := u16at extra (pos + 2)
    let pos' := pos + 4
    if id = 0x0001 ∧ pos' + size ≤ extra.length then
      let p1 : Nat × Nat :=
        if uncompressed_size = 0xFFFFFFFF ∧ 0 + 8 ≤ size then
          (u64at extra pos', 8)
        else (uncompressed, 0)
      let p2 : Nat × Nat :=
        if compressed_size = 0xFFFFFFF ∧ p1.2 + 8 ≤ size then
          (u64at extra (pos' + p1.2), p1.2 + 8)
        else (compressed, p1.2)
      let offset' :=
        if local_offset = 0xFFFFFFF ∧ p2.2 + 8 ≤ size then
          u64at extra (pos' + p2.2)
        else offset
      (p2.1, p1.1, offset')
    else
      parse_zip64_extra_loop extra compressed_size uncompressed_size
        local_offset fuel (pos' + size) compressed uncompressed offset
  else (compressed, uncompressed, offset)

/-- `P4kParser::parse_zip64_extra`: promote 32-bit header fields to their
64-bit ZIP64 values.  Returns `(compressed, uncompressed, offset)` as the
source does (the Rust wrapper's `Ok` never fails). -/
def parse_zip64_extra (extra : List Nat)
    (compressed_size uncompressed_size local_offset : Nat) :
    Nat × Nat × Nat :=
  parse_zip64_extra_loop extra compressed_size uncompressed_size local_offset
    (extra.length + 1) 0 compressed_size uncompressed_size local_offset

/-- `P4kParser::parse_cd_entry`: one central-directory entry at `pos`;
returns the entry and the stream position after it. -/
def parse_cd_entry (f : List Nat) (pos : Nat) :
    Except ParseErr (P4kEntry × Nat) := do
  let header ← readE f pos 46
  let sig := u32at header 0
  if sig ≠ 0x02014B50 then
    .error (.invalidMagic (le4 0x02014B50) (le4 sig))
  else
    let flags := u16at header 8
    let compression := CompressionMethod.fromU16 (u16at header 10)
    let mod_time := u16at header 12
    let mod_date := u16at header 14
    let crc32v := u32at header 16
    let compressed_size := u32at header 20
    let uncompressed_size := u32at header 24
    let name_length := u16at header 28
    let extra_length := u16at header 30
    let comment_length := u16at header 32
    let local_header_offset := u32at header 42
    let path ← readE f (pos + 46) name_length
    let extra ← readE f (pos + 46 + name_length) extra_length
    let sizes := parse_zip64_extra extra compressed_size uncompressed_size
      local_header_offset
    let newPos := pos + 46 + name_length + extra_length + comment_length
    .ok ({ path := path
           compression := compression
           crc32 := crc32v
           compressed_size := sizes.1
           uncompressed_size := sizes.2.1
           local_header_offset := sizes.2.2
           flags := flags
           mod_time := mod_time
           mod_date := mod_date
           is_encrypted := flags % 2 ≠ 0
           is_directory := path.getLast? = some 0x2F }, newPos)

/-- `P4kParser::parse_central_directory`: read `n` consecutive entries
starting at `pos` (the progress callback is advisory and elided). -/
def parse_cd_loop (f : List Nat) : Nat → Nat → Except ParseErr (List P4kEntry)
  | 0, _ => .ok []
  | n + 1, pos => do
    let (e, pos') ← parse_cd_entry f pos
    let rest ← parse_cd_loop f n pos'
    .ok (e :: rest)

/-- `EndOfCentralDirectory` record from `p4k/mod.rs`. -/
structure EndOfCentralDirectory where
  disk_number : Nat
  cd_disk : Nat
  disk_entries : Nat
  total_entries : Nat
  cd_size : Nat
  cd_offset : Nat
  comment_length : Nat
deriving DecidableEq

/-- `windows(4).rposition`: index of the last 4-byte window equal to
`pat`. -/
def rposition4 (l pat : List Nat) : Option Nat :=
  ((List.range (l.length - 3)).filter (fun i => slice l i 4 = pat)).getLast?

/-- `P4kParser::parse_zip64_eocd`: follow the ZIP64 locator 20 bytes
before the EOCD, then read the ZIP64 EOCD it names; returns
`(cd_offset, total_entries)`. -/
def parse_zip64_eocd (f : List Nat) (eocd_offset : Nat) :
    Except ParseErr (Nat × Nat) := do
  let locator_offset := eocd_offset - 20
  let locator ← readE f locator_offset 20
  let sig := u32at locator 0
  if sig ≠ 0x07064B50 then
    .error (.invalidMagic (le4 0x07064B50) (le4 sig))
  else
    let zip64_eocd_offset := u64at locator 8
    let zip64_eocd ← readE f zip64_eocd_offset 56
    let sig2 := u32at zip64_eocd 0
    if sig2 ≠ 0x06064B50 then
      .error (.invalidMagic (le4 0x06064B50) (le4 sig2))
    else
      let total_entries := u64at zip64_eocd 32
      let cd_offset := u64at zip64_eocd 48
      .ok (cd_offset, total_entries)

/-- `P4kParser::parse_eocd`: scan the last 65 558 bytes backwards for the
EOCD signature, decode the record, and take the ZIP64 path when a field
holds its sentinel. -/
def parse_eocd (f : List Nat) : Except ParseErr EndOfCentralDirectory := do
  let file_size := f.length
  let search_start := file_size - min file_size 65558
  let buffer := f.drop search_start
  match rposition4 buffer [0x50, 0x4B, 0x05, 0x06] with
  | none => .error (.invalidMagic [0x50, 0x4B, 0x05, 0x06] [])
  | some eocd_offset =>
    let eocd_abs_offset := search_start + eocd_offset
    let eocd_data ← readE f eocd_abs_offset 22
    let disk_number := u16at eocd_data 4
    let cd_disk := u16at eocd_data 6
    let disk_entries := u16at eocd_data 8
    let total_entries := u16at eocd_data 10
    let cd_size := u32at eocd_data 12
    let cd_offset := u32at eocd_data 16
    let comment_length := u16at eocd_data 20
    let promoted ←
      if cd_offset = 0xFFFFFFFF ∨ total_entries = 0xFFFF then
        parse_zip64_eocd f eocd_abs_offset
      else
        pure (cd_offset, total_entries)
    .ok { disk_number := disk_number
          cd_disk := cd_disk
          disk_entries := disk_entries
          total_entries := promoted.2
          cd_size := cd_size
          cd_offset := promoted.1
          comment_length := comment_length }

/-- `P4kArchive`: entry list plus path index (the `HashMap` is modelled as
an association list whose insert overwrites). -/
structure P4kArchive where
  entries : List P4kEntry
  path_index : List (List Nat × Nat)
deriving DecidableEq

/-- `HashMap::insert` on the association-list model: replace an existing
binding or append a new one. -/
def indexInsert (m : List (List Nat × Nat)) (k : List Nat) (v : Nat) :
    List (List Nat × Nat) :=
  if m.any (fun p => p.1 == k) then
    m.map (fun p => if p.1 == k then (k, v) else p)
  else m ++ [(k, v)]

/-- `HashMap::get` on the association-list model. -/
def indexLookup (m : List (List Nat × Nat)) (k : List Nat) : Option Nat :=
  (m.find? (fun p => p.1 == k)).map (fun p => p.2)

/-- `ParseOptions` from `traits.rs` (fields the embedded parsers read). -/
structure ParseOptions where
  strict_validation : Bool
  parse_nested : Bool
  max_nesting_depth : Nat
  skip_unknown_chunks : Bool
  decompression_memory_limit : Nat
  use_memory_mapping : Bool
  memory_mapping_threshold : Nat

/-- `ParseOptions::default`. -/
def ParseOptions.default : ParseOptions :=
  { strict_validation := false
    parse_nested := true
    max_nesting_depth := 32
    skip_unknown_chunks := true
    decompression_memory_limit := 512 * 1024 * 1024
    use_memory_mapping := true
    memory_mapping_threshold := 100 * 1024 * 1024 }

/-- `P4kParser::parse_with_options` (p4k/mod.rs lines 433-490): verify the
leading local-file-header magic, locate the EOCD, read the central
directory, and build the path index. -/
def P4kParser.parse_with_options (f : List Nat) (_options : ParseOptions) :
    Except ParseErr P4kArchive := do
  let magic ← readE f 0 4
  if magic ≠ [0x50, 0x4B, 0x03, 0x04] then
    .error (.invalidMagic [0x50, 0x4B, 0x03, 0x04] magic)
  else
    let eocd ← parse_eocd f
    let entries ← parse_cd_loop f eocd.total_entries eocd.cd_offset
    let path_index := (entries.enum).foldl
      (fun m p => indexInsert m p.2.path p.1) []
    .ok { entries := entries, path_index := path_index }

/-- `Parser::parse`: `parse_with_options` at default options. -/
def P4kParser.parse (f : List Nat) : Except ParseErr P4kArchive :=
  P4kParser.parse_with_options f ParseOptions.default

/-- `P4kParser::extract_data` (p4k/mod.rs lines 372-409): seek to the
entry's local header, verify its signature, skip name and extra fields,
read the compressed payload and decompress it.  No CRC verification
happens here. -/
def P4kParser.extract_data (impls : CompressionImpls) (f : List Nat)
    (entry : P4kEntry) : Except ParseErr (List Nat) := do
  let local_header ← readE f entry.local_header_offset 30
  let sig := u32at local_header 0
  if sig ≠ 0x04034B50 then
    .error (.invalidMagic (le4 0x04034B50) (le4 sig))
  else
    let name_len := u16at local_header 26
    let extra_len := u16at local_header 28
    let data_pos := entry.local_header_offset + 30 + name_len + extra_len
    let compressed ← readE f data_pos entry.compressed_size
    P4kCompression.decompress impls compressed entry.compression
      entry.uncompressed_size

/-- `RandomAccessParser::extract_entry` for `P4kParser`: parse the archive
index, look the path up, and extract that entry's payload. -/
def P4kParser.extract_entry (impls : CompressionImpls) (f : List Nat)
    (entry_id : List Nat) : Except ParseErr (List Nat) := do
  let archive ← P4kParser.parse f
  match indexLookup archive.path_index entry_id with
  | none => .error .missingField
  | some idx =>
    match archive.entries.get? idx with
    | none => .error .invalidStructure
    | some entry => P4kParser.extract_data impls f entry

/-- Errors of `starbreaker_vfs::mount::MountError` (message payloads
elided). -/
inductive MountErr where
  | ioErr
  | invalidPath
deriving DecidableEq

/-- `P4kMount::read_entry_data` (starbreaker-vfs/src/mount.rs lines
137-182): like `extract_data`, but verifies the CRC-32 of the decompressed
bytes against the entry record and fails the read on mismatch. -/
def P4kMount.read_entry_data (impls : CompressionImpls) (f : List Nat)
    (entry : P4kEntry) : Except MountErr (List Nat) := do
  let local_header ←
    match readExact f entry.local_header_offset 30 with
    | some bs => Except.ok bs
    | none => Except.error MountErr.ioErr
  let sig := u32at local_header 0
  if sig ≠ 0x04034B50 then
    .error .invalidPath
  else
    let name_len := u16at local_header 26
    let extra_len := u16at local_header 28
    let data_pos := entry.local_header_offset + 30 + name_len + extra_len
    let compressed ←
      match readExact f data_pos entry.compressed_size with
      | some bs => Except.ok bs
      | none => Except.error MountErr.ioErr
    match P4kCompression.decompress impls compressed entry.compression
        entry.uncompressed_size with
    | .error _ => .error .invalidPath
    | .ok data =>
      if ¬ verify_crc32 data entry.crc32 then
        .error .invalidPath
      else
        .ok data

/-! ### Extraction cache (`starbreaker-vfs/src/p4k.rs`) -/

/-- `CacheEntry` from `starbreaker-vfs/src/p4k.rs`. -/
structure CacheEntry where
  data : List Nat
  size : Nat
deriving DecidableEq

/-- `LruCache` from `starbreaker-vfs/src/p4k.rs`; the `HashMap` of entries
is modelled as an association list with overwriting insert. -/
structure LruCache where
  entries : List (String × CacheEntry)
  order : List String
  max_size_bytes : Nat
  current_size : Nat
deriving DecidableEq

/-- `HashMap::get` for the cache's entry map. -/
def cacheLookup (m : List (String × CacheEntry)) (k : String) :
    Option CacheEntry :=
  (m.find? (fun p => p.1 == k)).map (fun p => p.2)

/-- `HashMap::insert` for the cache's entry map: overwrite or append. -/
def cacheInsert (m : List (String × CacheEntry)) (k : String)
    (v : CacheEntry) : List (String × CacheEntry) :=
  if m.any (fun p => p.1 == k) then
    m.map (fun p => if p.1 == k then (k, v) else p)
  else m ++ [(k, v)]

/-- `HashMap::remove` for the cache's entry map: drop the binding. -/
def cacheRemove (m : List (String × CacheEntry)) (k : String) :
    List (String × CacheEntry) :=
  m.eraseP (fun p => p.1 == k)

/-- `LruCache::new`. -/
def LruCache.new (max_size_bytes : Nat) : LruCache :=
  { entries := [], order := [], max_size_bytes := max_size_bytes,
    current_size := 0 }

/-- `LruCache::get`: on a hit, move the key to the most-recently-used end
of `order` and return the data; on a miss return nothing. -/
def LruCache.get (c : LruCache) (key : String) :
    Option (List Nat) × LruCache :=
  match cacheLookup c.entries key with
  | some entry =>
    let order' :=
      if c.order.contains key then c.order.erase key ++ [key] else c.order
    (some entry.data, { c with order := order' })
  | none => (none, c)

/-- Eviction loop of `LruCache::insert`
(`while current_size + size > max_size_bytes && !order.is_empty()`),
threaded over the mutated `(entries, order, current_size)` triple: pop
the least-recently-used key and, when it is still mapped, drop its entry
and subtract its size. -/
def evictGo (max_size_bytes size : Nat) :
    List (String × CacheEntry) → List String → Nat →
    List (String × CacheEntry) × List String × Nat
  | entries, [], current_size => (entries, [], current_size)
  | entries, oldest :: rest, current_size =>
    if current_size + size > max_size_bytes then
      match cacheLookup entries oldest with
      | some entry =>
        evictGo max_size_bytes size (cacheRemove entries oldest) rest
          (current_size - entry.size)
      | none => evictGo max_size_bytes size entries rest current_size
    else (entries, oldest :: rest, current_size)

/-- The eviction loop applied to a cache state. -/
def LruCache.evictLoop (c : LruCache) (size : Nat) : LruCache :=
  let r := evictGo c.max_size_bytes size c.entries c.order c.current_size
  { entries := r.1
    order := r.2.1
    max_size_bytes := c.max_size_bytes
    current_size := r.2.2 }

/-- `LruCache::insert`: evict until the new entry fits, then insert it
only when its size does not exceed the cap. -/
def LruCache.insert (c : LruCache) (key : String) (data : List Nat) :
    LruCache :=
  let size := data.length
  let c' := c.evictLoop size
  if size ≤ c'.max_size_bytes then
    { c' with entries := cacheInsert c'.entries key ⟨data, size⟩
              order := c'.order ++ [key]
              current_size := c'.current_size + size }
  else c'

/-- One cache operation (the mutating public surface used by
`extract_cached`). -/
inductive CacheOp where
  | get (key : String)
  | insert (key : String) (data : List Nat)

/-- Apply one cache operation. -/
def LruCache.applyOp (c : LruCache) : CacheOp → LruCache
  | .get k => (c.get k).2
  | .insert k d => c.insert k d

/-- Run a sequence of cache operations from a fresh cache of cap `cap`. -/
def LruCache.runOps (cap : Nat) (ops : List CacheOp) : LruCache :=
  ops.foldl LruCache.applyOp (LruCache.new cap)

/-- The byte total actually held by the cache: the sum of the sizes of the
mapped entries. -/
def LruCache.totalBytes (c : LruCache) : Nat :=
  (c.entries.map (fun p => p.2.size)).sum

/-- Structural invariant of the cache: every mapped key appears in the
recency list, mapped keys are distinct, the size accounting dominates the
held bytes, and the held bytes respect the cap. -/
def LruCache.Inv (c : LruCache) : Prop :=
  (∀ k ∈ c.entries.map Prod.fst, k ∈ c.order) ∧
  (c.entries.map Prod.fst).Nodup ∧
  c.totalBytes ≤ c.current_size ∧
  c.totalBytes ≤ c.max_size_bytes

/-! ### CGF geometry parser (`starbreaker-parsers/src/cgf`) -/

/-- `ChunkType` from `cgf/chunks.rs`. -/
inductive ChunkType where
  | SourceInfo | Timing | MtlName | ExportFlags
  | Mesh | MeshSubsets | Node | Material
  | BoneAnim | BoneNameList | BoneInitialPos | BoneMesh
  | Helper | MorphTargets | Controller
  | CompiledBones | CompiledPhysicalBones | CompiledMorphTargets
  | CompiledMesh | CompiledPhysicsGeometry | CompiledIntSkinVertices
  | CompiledExtToIntMap | DataStream | BreakablePhysics | FaceMap
  | VertAnim | SceneProps | FootPlantInfo | BoneMeshUnknown
  | Unknown (raw : Nat)
deriving DecidableEq

/-- `ChunkType::from_u32`. -/
def ChunkType.from_u32 (value : Nat) : ChunkType :=
  match value with
  | 0x0000 => .SourceInfo
  | 0x0001 => .Timing
  | 0x0002 => .MtlName
  | 0x0014 => .MtlName
  | 0x0003 => .ExportFlags
  | 0x1000 => .Mesh
  | 0x1001 => .MeshSubsets
  | 0x100B => .Node
  | 0x100C => .Material
  | 0x1016 => .BoneAnim
  | 0x1017 => .BoneNameList
  | 0x1018 => .BoneInitialPos
  | 0x1019 => .BoneMesh
  | 0x101A => .Helper
  | 0x101B => .MorphTargets
  | 0x101C => .Controller
  | 0x1021 => .CompiledBones
  | 0xACDC0000 => .CompiledBones
  | 0x1022 => .CompiledPhysicalBones
  | 0xACDC0001 => .CompiledPhysicalBones
  | 0x1023 => .CompiledMorphTargets
  | 0xACDC0002 => .CompiledMorphTargets
  | 0x1024 => .CompiledMesh
  | 0xCCCC0000 => .CompiledMesh
  | 0x1025 => .CompiledPhysicsGeometry
  | 0x1026 => .CompiledIntSkinVertices
  | 0x1027 => .CompiledExtToIntMap
  | 0x1028 => .DataStream
  | 0x1029 => .BreakablePhysics
  | 0x102A => .FaceMap
  | 0x102B => .VertAnim
  | 0x102C => .SceneProps
  | 0x102D => .FootPlantInfo
  | 0x102E => .BoneMeshUnknown
  | other => .Unknown other

/-- `ChunkType::to_u32`. -/
def ChunkType.to_u32 : ChunkType → Nat
  | .SourceInfo => 0x0000
  | .Timing => 0x0001
  | .MtlName => 0x0014
  | .ExportFlags => 0x0003
  | .Mesh => 0x1000
  | .MeshSubsets => 0x1001
  | .Node => 0x100B
  | .Material => 0x100C
  | .BoneAnim => 0x1016
  | .BoneNameList => 0x1017
  | .BoneInitialPos => 0x1018
  | .BoneMesh => 0x1019
  | .Helper => 0x101A
  | .MorphTargets => 0x101B
  | .Controller => 0x101C
  | .CompiledBones => 0xACDC0000
  | .CompiledPhysicalBones => 0xACDC0001
  | .CompiledMorphTargets => 0xACDC0002
  | .CompiledMesh => 0xCCCC0000
  | .CompiledPhysicsGeometry => 0x1025
  | .CompiledIntSkinVertices => 0x1026
  | .CompiledExtToIntMap => 0x1027
  | .DataStream => 0x1028
  | .BreakablePhysics => 0x1029
  | .FaceMap => 0x102A
  | .VertAnim => 0x102B
  | .SceneProps => 0x102C
  | .FootPlantInfo => 0x102D
  | .BoneMeshUnknown => 0x102E
  | .Unknown v => v

/-- `ChunkHeader` from `cgf/chunks.rs`. -/
structure ChunkHeader where
  chunk_type : ChunkType
  version : Nat
  offset : Nat
  id : Nat
  size : Nat
deriving DecidableEq

/-- `CgfVersion`. -/
inductive CgfVersion where
  | Legacy (v : Nat)
  | Ivo (v : Nat)
  | CrCh (v : Nat)
deriving DecidableEq

/-- `CgfHeader`. -/
structure CgfHeader where
  chunk_count : Nat
  chunk_table_offset : Nat
deriving DecidableEq

/-- `BoundingBox` (never produced by the embedded decoders). -/
structure BoundingBox where
  min : List Nat
  max : List Nat
deriving DecidableEq

/-- `Vertex` from `cgf/mesh.rs`; `f32` components are kept as their
IEEE-754 bit patterns (the decoders only move them). -/
structure Vertex where
  position : List Nat
  normal : List Nat
  uv : List (List Nat)
  color : Option (List Nat)
  tangent : Option (List Nat)
  bone_weights : Option (List Nat)
  bone_indices : Option (List Nat)
deriving DecidableEq

/-- `Face` from `cgf/mesh.rs`. -/
structure Face where
  indices : List Nat
  material_id : Nat
  smoothing_group : Nat
deriving DecidableEq

/-- `MeshSubset` from `cgf/mesh.rs`. -/
structure MeshSubset where
  material_id : Nat
  first_index : Nat
  num_indices : Nat
  first_vertex : Nat
  num_vertices : Nat
  bounding_box : Option BoundingBox
deriving DecidableEq

/-- `Mesh` from `cgf/mesh.rs`. -/
structure Mesh where
  name : String
  vertices : List Vertex
  faces : List Face
  subsets : List MeshSubset
  bounding_box : Option BoundingBox
deriving DecidableEq

/-- Three consecutive 32-bit little-endian fields of a chunk. -/
def le32x3 (b : List Nat) : List Nat := [u32at b 0, u32at b 4, u32at b 8]

/-- Two consecutive 32-bit little-endian fields of a chunk. -/
def le32x2 (b : List Nat) : List Nat := [u32at b 0, u32at b 4]

/-- `count` consecutive `read_exact` calls of `sz` bytes each; succeeds
exactly when all of them do, i.e. when `pos + count * sz` is within the
stream. -/
def readChunks (f : List Nat) (pos count sz : Nat) :
    Option (List (List Nat)) :=
  if pos + count * sz ≤ f.length then
    some ((List.range count).map (fun i => slice f (pos + i * sz) sz))
  else none

/-- `readChunks` in the parser's error monad. -/
def readChunksE (f : List Nat) (pos count sz : Nat) :
    Except ParseErr (List (List Nat)) :=
  match readChunks f pos count sz with
  | some cs => .ok cs
  | none => .error .ioError

/-- The four skin weights of one 32-byte skin chunk. -/
def skinWeights (b : List Nat) : List Nat :=
  [u32at b 0, u32at b 4, u32at b 8, u32at b 12]

/-- The four bone indices of one 32-byte skin chunk: `u16` values clamped
to 255 (`.min(255) as u8`). -/
def skinIndices (b : List Nat) : List Nat :=
  [min (u16at b 16) 255, min (u16at b 18) 255,
   min (u16at b 20) 255, min (u16at b 22) 255]

/-- Accumulators of the compiled-mesh stream loop, named as in
`parse_compiled_mesh_chunk`. -/
structure StreamAcc where
  positions : List (List Nat)
  normals : List (List Nat)
  uvs : List (List Nat)
  colors : List (List Nat)
  bone_weights_list : List (List Nat)
  bone_indices_list : List (List Nat)
deriving DecidableEq

/-- Empty stream accumulators. -/
def StreamAcc.empty : StreamAcc := ⟨[], [], [], [], [], []⟩

/-- Stream loop of `CgfParser::parse_compiled_mesh_chunk` (cgf/mod.rs
lines 737-826): read `{stream-type, stream-size}`, then the payload sized
by the stream type; unknown types skip `stream-size` bytes. -/
def parse_mesh_streams (f : List Nat) (vert_count : Nat) :
    Nat → Nat → StreamAcc → Except ParseErr (StreamAcc × Nat)
  | 0, pos, acc => .ok (acc, pos)
  | n + 1, pos, acc => do
    let tb ← readE f pos 4
    let sb ← readE f (pos + 4) 4
    let stream_type := leNat tb
    let stream_size := leNat sb
    let pos := pos + 8
    if stream_type = 0 then do
      let cs ← readChunksE f pos vert_count 12
      parse_mesh_streams f vert_count n (pos + vert_count * 12)
        { acc with positions := acc.positions ++ cs.map le32x3 }
    else if stream_type = 1 then do
      let cs ← readChunksE f pos vert_count 12
      parse_mesh_streams f vert_count n (pos + vert_count * 12)
        { acc with normals := acc.normals ++ cs.map le32x3 }
    else if stream_type = 2 then do
      let cs ← readChunksE f pos vert_count 8
      parse_mesh_streams f vert_count n (pos + vert_count * 8)
        { acc with uvs := acc.uvs ++ cs.map le32x2 }
    else if stream_type = 3 then do
      let cs ← readChunksE f pos vert_count 4
      parse_mesh_streams f vert_count n (pos + vert_count * 4)
        { acc with colors := acc.colors ++ cs }
    else if stream_type = 12 then do
      let cs ← readChunksE f pos vert_count 32
      parse_mesh_streams f vert_count n (pos + vert_count * 32)
        { acc with
            bone_weights_list := acc.bone_weights_list ++ cs.map skinWeights
            bone_indices_list := acc.bone_indices_list ++ cs.map skinIndices }
    else
      parse_mesh_streams f vert_count n (pos + stream_size) acc

/-- Ghost scanner over the same stream table: the declared stream-type
codes and the end position, advancing exactly as the stream loop does.
Used to state which streams a chunk declares. -/
def mesh_stream_scan (f : List Nat) (vert_count : Nat) :
    Nat → Nat → Option (List Nat × Nat)
  | 0, pos => some ([], pos)
  | n + 1, pos => do
    let tb ← readExact f pos 4
    let _ ← readExact f (pos + 4) 4
    let stream_type := leNat tb
    let stream_size := leNat (slice f (pos + 4) 4)
    let pos := pos + 8
    let consumed ←
      if stream_type = 0 ∨ stream_type = 1 then
        if pos + vert_count * 12 ≤ f.length then some (vert_count * 12)
        else none
      else if stream_type = 2 then
        if pos + vert_count * 8 ≤ f.length then some (vert_count * 8)
        else none
      else if stream_type = 3 then
        if pos + vert_count * 4 ≤ f.length then some (vert_count * 4)
        else none
      else if stream_type = 12 then
        if pos + vert_count * 32 ≤ f.length then some (vert_count * 32)
        else none
      else some stream_size
    let rest ← mesh_stream_scan f vert_count n (pos + consumed)
    some (stream_type :: rest.1, rest.2)

/-- IEEE-754 bit pattern of `1.0f32`. -/
def f32One : Nat := 0x3F800000

/-- `CgfParser::parse_compiled_mesh_chunk` (cgf/mod.rs lines 710-897):
32-byte header, vertex streams, default fill for missing normal/UV
streams, vertex assembly with positional defaults, then faces and
subsets. -/
def parse_compiled_mesh_chunk (f : List Nat) (header : ChunkHeader) :
    Except ParseErr Mesh := do
  let mh ← readE f header.offset 32
  let vert_count := u32at mh 4
  let index_count := u32at mh 8
  let subset_count := u32at mh 12
  let stream_count := u32at mh 16
  let sres ← parse_mesh_streams f vert_count stream_count
    (header.offset + 32) StreamAcc.empty
  let acc := sres.1
  let pos := sres.2
  let normals :=
    if acc.normals.isEmpty then List.replicate vert_count [0, f32One, 0]
    else acc.normals
  let uvs :=
    if acc.uvs.isEmpty then List.replicate vert_count [0, 0] else acc.uvs
  let vertices := (List.range vert_count).map (fun i =>
    { position := (acc.positions.get? i).getD [0, 0, 0]
      normal := (normals.get? i).getD [0, f32One, 0]
      uv := [(uvs.get? i).getD [0, 0]]
      color := acc.colors.get? i
      tangent := none
      bone_weights := acc.bone_weights_list.get? i
      bone_indices := acc.bone_indices_list.get? i : Vertex })
  let face_count := index_count / 3
  let faceChunks ← readChunksE f pos face_count 12
  let faces := faceChunks.map (fun b =>
    { indices := le32x3 b, material_id := 0, smoothing_group := 0 : Face })
  let pos := pos + face_count * 12
  let subsetChunks ← readChunksE f pos subset_count 16
  let subsets := subsetChunks.map (fun b =>
    { material_id := u32at b 0
      first_index := u32at b 4
      num_indices := u32at b 8
      first_vertex := u32at b 12
      num_vertices := 0
      bounding_box := none : MeshSubset })
  .ok { name := "CompiledMesh_" ++ toString header.id
        vertices := vertices
        faces := faces
        subsets := subsets
        bounding_box := none }

/-- `CgfParser::parse_mesh_chunk` (legacy mesh, cgf/mod.rs lines 370-456):
48-byte header, then packed positions, normals, UVs and faces. -/
def parse_mesh_chunk (f : List Nat) (header : ChunkHeader) :
    Except ParseErr Mesh := do
  let mh ← readE f header.offset 48
  let vert_count := u32at mh 4
  let face_count := u32at mh 8
  let pos := header.offset + 48
  let posChunks ← readChunksE f pos vert_count 12
  let pos := pos + vert_count * 12
  let normChunks ← readChunksE f pos vert_count 12
  let pos := pos + vert_count * 12
  let uvChunks ← readChunksE f pos vert_count 8
  let pos := pos + vert_count * 8
  let faceChunks ← readChunksE f pos face_count 12
  let vertices := (List.range vert_count).map (fun i =>
    { position := le32x3 ((posChunks.get? i).getD [])
      normal := le32x3 ((normChunks.get? i).getD [])
      uv := [le32x2 ((uvChunks.get? i).getD [])]
      color := none
      tangent := none
      bone_weights := none
      bone_indices := none : Vertex })
  let faces := faceChunks.map (fun b =>
    { indices := le32x3 b, material_id := 0, smoothing_group := 0 : Face })
  .ok { name := "", vertices := vertices, faces := faces, subsets := [],
        bounding_box := none }

/-- Trailing-NUL trim (`trim_end_matches('\0')` on the lossily decoded
name; names are kept as raw bytes since the claims compare them
byte-for-byte). -/
def trimTrailingZeros (l : List Nat) : List Nat :=
  (l.reverse.dropWhile (fun b => b == 0)).reverse

/-- `Node` from `cgf/mod.rs`. -/
structure CgfNode where
  name : List Nat
  id : Nat
  parent_id : Nat
  transform : List (List Nat)
  position : List Nat
  rotation : List Nat
  scale : List Nat
  mesh_index : Option Nat
  material_index : Option Nat
  properties : List (String × String)
deriving DecidableEq

/-- Read a row-major 4x4 matrix stored as 16 little-endian 32-bit fields
beginning at `off` of a byte list. -/
def mat4at (b : List Nat) (off : Nat) : List (List Nat) :=
  (List.range 4).map (fun r =>
    (List.range 4).map (fun c => u32at b (off + (r * 4 + c) * 4)))

/-- `CgfParser::parse_node_chunk` (cgf/mod.rs lines 459-537). -/
def parse_node_chunk (f : List Nat) (header : ChunkHeader) :
    Except ParseErr CgfNode := do
  let lenB ← readE f header.offset 4
  let name_len := leNat lenB
  let nameB ← readE f (header.offset + 4) name_len
  let node_data ← readE f (header.offset + 4 + name_len) 128
  let id := u32at node_data 0
  let parent_id := u32at node_data 4
  let transform := mat4at node_data 8
  let position := [u32at node_data (8 + 3 * 4),
                   u32at node_data (8 + 7 * 4),
                   u32at node_data (8 + 11 * 4)]
  let mesh_index_raw := u32at node_data 72
  let material_index_raw := u32at node_data 76
  .ok { name := trimTrailingZeros nameB
        id := id
        parent_id := parent_id
        transform := transform
        position := position
        rotation := [0, 0, 0, f32One]
        scale := [f32One, f32One, f32One]
        mesh_index := if mesh_index_raw = 0xFFFFFFFF then none
                      else some mesh_index_raw
        material_index := if material_index_raw = 0xFFFFFFFF then none
                          else some material_index_raw
        properties := [] }

/-- `MaterialTextures` from `cgf/mod.rs`. -/
structure MaterialTextures where
  diffuse : Option (List Nat)
  normal : Option (List Nat)
  specular : Option (List Nat)
  emissive : Option (List Nat)
  detail : Option (List Nat)
  blend : Option (List Nat)
  height : Option (List Nat)
  decal : Option (List Nat)
deriving DecidableEq

/-- Default (all-empty) texture slots. -/
def MaterialTextures.empty : MaterialTextures :=
  ⟨none, none, none, none, none, none, none, none⟩

/-- `MaterialRef` from `cgf/mod.rs` (shader parameters and sub-materials
are never filled by the decoder). -/
structure MaterialRef where
  name : List Nat
  index : Nat
  shader : List Nat
  textures : MaterialTextures
deriving DecidableEq

/-- Texture-slot loop of `parse_material_chunk`: slot `i` of
`0..min tex_count 4` gets the next length-prefixed path when its length
is positive. -/
def read_texture_slots (f : List Nat) :
    Nat → Nat → Nat → MaterialTextures →
    Except ParseErr (MaterialTextures × Nat)
  | 0, _, pos, tex => .ok (tex, pos)
  | n + 1, i, pos, tex => do
    let lenB ← readE f pos 4
    let tex_len := leNat lenB
    if tex_len > 0 then do
      let pathB ← readE f (pos + 4) tex_len
      let path := trimTrailingZeros pathB
      let tex' :=
        if i = 0 then { tex with diffuse := some path }
        else if i = 1 then { tex with normal := some path }
        else if i = 2 then { tex with specular := some path }
        else if i = 3 then { tex with emissive := some path }
        else tex
      read_texture_slots f n (i + 1) (pos + 4 + tex_len) tex'
    else
      read_texture_slots f n (i + 1) (pos + 4) tex

/-- `CgfParser::parse_material_chunk` (cgf/mod.rs lines 540-611). -/
def parse_material_chunk (f : List Nat) (header : ChunkHeader) :
    Except ParseErr MaterialRef := do
  let nameLenB ← readE f header.offset 4
  let name_len := leNat nameLenB
  let nameB ← readE f (header.offset + 4) name_len
  let p1 := header.offset + 4 + name_len
  let shaderLenB ← readE f p1 4
  let shader_len := leNat shaderLenB
  let shaderB ← readE f (p1 + 4) shader_len
  let p2 := p1 + 4 + shader_len
  let indexB ← readE f p2 4
  let texCountB ← readE f (p2 + 4) 4
  let tex_count := leNat texCountB
  let texRes ← read_texture_slots f (min tex_count 4) 0 (p2 + 8)
    MaterialTextures.empty
  .ok { name := trimTrailingZeros nameB
        index := leNat indexB
        shader := trimTrailingZeros shaderB
        textures := texRes.1 }

/-- `Bone` from `cgf/bones.rs` (matrices are 4x4 bit-pattern rows;
physics and limits are never produced by the decoder). -/
structure Bone where
  name : List Nat
  parent_index : Option Nat
  controller_id : Nat
  local_transform : List (List Nat)
  bind_pose : List (List Nat)
  inverse_bind_pose : List (List Nat)
  physics : Option Unit
  limits : Option Unit
deriving DecidableEq

/-- `Skeleton` from `cgf/bones.rs`. -/
structure Skeleton where
  bones : List Bone
  bone_map : List (List Nat × Nat)
  root_bones : List Nat
deriving DecidableEq

/-- `Skeleton::new`. -/
def Skeleton.new : Skeleton := ⟨[], [], []⟩

/-- `Skeleton::add_bone`. -/
def Skeleton.add_bone (s : Skeleton) (b : Bone) : Skeleton :=
  let idx := s.bones.length
  { bones := s.bones ++ [b]
    bone_map := indexInsert s.bone_map b.name idx
    root_bones :=
      if b.parent_index.isNone then s.root_bones ++ [idx] else s.root_bones }

/-- `Skeleton::build_hierarchy`: recompute the root set from the parent
indices (no validation happens here). -/
def Skeleton.build_hierarchy (s : Skeleton) : Skeleton :=
  { s with root_bones :=
      ((s.bones.enum.filter (fun p => p.2.parent_index.isNone)).map
        Prod.fst) }

/-- Iteration of `Skeleton::validate` over the enumerated bones; an error
carries the offending bone's name and parent index (the formatted message
is elided). -/
def Skeleton.validateGo (total : Nat) :
    List Bone → Nat → Except (List Nat × Nat) Unit
  | [], _ => .ok ()
  | b :: rest, idx =>
    match b.parent_index with
    | some parent =>
      if parent ≥ total then .error (b.name, parent)
      else if parent = idx then .error (b.name, parent)
      else Skeleton.validateGo total rest (idx + 1)
    | none => Skeleton.validateGo total rest (idx + 1)

/-- `Skeleton::validate` (cgf/bones.rs lines 116-134): every present
parent index must be in range and different from the bone's own index. -/
def Skeleton.validate (s : Skeleton) : Except (List Nat × Nat) Unit :=
  Skeleton.validateGo s.bones.length s.bones 0

/-- Transpose of a 4x4 matrix given as rows — exactly the
`inverse_bind_pose[row][col] = bind_pose[col][row]` loop of
`parse_compiled_bones_chunk` (cgf/mod.rs lines 681-687). -/
def transpose4 (m : List (List Nat)) : List (List Nat) :=
  (List.range 4).map (fun r =>
    (List.range 4).map (fun c => ((m.get? c).getD []).get? r |>.getD 0))

/-- Bone-name loop of `parse_compiled_bones_chunk`: length-prefixed names
with trailing NUL padding trimmed. -/
def read_bone_names (f : List Nat) :
    Nat → Nat → Except ParseErr (List (List Nat) × Nat)
  | 0, pos => .ok ([], pos)
  | n + 1, pos => do
    let lenB ← readE f pos 4
    let name_len := leNat lenB
    let nameB ← readE f (pos + 4) name_len
    let rest ← read_bone_names f n (pos + 4 + name_len)
    .ok (trimTrailingZeros nameB :: rest.1, rest.2)

/-- Bone-data loop of `parse_compiled_bones_chunk`: per bone a parent
index (`i32`, negative means none), a controller id, a local transform
and a bind pose; the inverse bind pose is the plain 4x4 transpose of the
bind pose. -/
def read_bones_data (f : List Nat) :
    List (List Nat) → Nat → Skeleton → Except ParseErr (Skeleton × Nat)
  | [], pos, skel => .ok (skel, pos)
  | name :: rest, pos, skel => do
    let parentB ← readE f pos 4
    let parent_raw := i32ofNat (leNat parentB)
    let parent_index : Option Nat :=
      if parent_raw < 0 then none else some parent_raw.toNat
    let controllerB ← readE f (pos + 4) 4
    let matB ← readE f (pos + 8) 128
    let local_transform := mat4at matB 0
    let bind_pose := mat4at matB 64
    let bone : Bone :=
      { name := name
        parent_index := parent_index
        controller_id := leNat controllerB
        local_transform := local_transform
        bind_pose := bind_pose
        inverse_bind_pose := transpose4 bind_pose
        physics := none
        limits := none }
    read_bones_data f rest (pos + 136) (skel.add_bone bone)

/-- `CgfParser::parse_compiled_bones_chunk` (cgf/mod.rs lines 613-706):
bone count, names, per-bone data, then `build_hierarchy` (which performs
no validation). -/
def parse_compiled_bones_chunk (f : List Nat) (header : ChunkHeader) :
    Except ParseErr Skeleton := do
  let countB ← readE f header.offset 4
  let bone_count := leNat countB
  let names ← read_bone_names f bone_count (header.offset + 4)
  let res ← read_bones_data f names.1 names.2 Skeleton.new
  .ok res.1.build_hierarchy

/-- `MorphTarget` from `cgf/mod.rs`. -/
structure MorphTarget where
  name : List Nat
  mesh_index : Nat
  vertex_deltas : List (Nat × List Nat)
  normal_deltas : List (Nat × List Nat)
deriving DecidableEq

/-- `|x| > 0.0001` on an IEEE-754 single bit pattern: clear the sign bit
and compare magnitudes (for non-NaN floats the IEEE order of nonnegative
values coincides with the integer order of their bit patterns;
`0x38D1B717` is the pattern of `1.0e-4f32`). -/
def f32AbsGtEps (b : Nat) : Bool :=
  let m := b % 2 ^ 31
  m ≤ 0x7F800000 && m > 0x38D1B717

/-- Delta loop of one morph target: 28 bytes per delta; normal deltas are
kept only when some component's magnitude exceeds `1e-4`. -/
def morphDeltas (cs : List (List Nat)) :
    List (Nat × List Nat) × List (Nat × List Nat) :=
  (cs.map (fun b => (u32at b 0, [u32at b 4, u32at b 8, u32at b 12])),
   (cs.filter (fun b =>
      f32AbsGtEps (u32at b 16) || f32AbsGtEps (u32at b 20) ||
      f32AbsGtEps (u32at b 24))).map (fun b =>
        (u32at b 0, [u32at b 16, u32at b 20, u32at b 24])))

/-- Target loop of `parse_compiled_morph_targets_chunk`. -/
def read_morph_targets (f : List Nat) :
    Nat → Nat → Except ParseErr (List MorphTarget × Nat)
  | 0, pos => .ok ([], pos)
  | n + 1, pos => do
    let lenB ← readE f pos 4
    let name_len := leNat lenB
    let nameB ← readE f (pos + 4) name_len
    let pos := pos + 4 + name_len
    let _range ← readE f pos 8
    let dcB ← readE f (pos + 8) 4
    let delta_count := leNat dcB
    let cs ← readChunksE f (pos + 12) delta_count 28
    let deltas := morphDeltas cs
    let rest ← read_morph_targets f n (pos + 12 + delta_count * 28)
    .ok ({ name := nameB
           mesh_index := 0
           vertex_deltas := deltas.1
           normal_deltas := deltas.2 : MorphTarget } :: rest.1, rest.2)

/-- `CgfParser::parse_compiled_morph_targets_chunk` (cgf/mod.rs lines
901-979). -/
def parse_compiled_morph_targets_chunk (f : List Nat)
    (header : ChunkHeader) : Except ParseErr (List MorphTarget) := do
  let mh ← readE f header.offset 8
  let target_count := u32at mh 0
  let res ← read_morph_targets f target_count (header.offset + 8)
  .ok res.1

/-- `CgfModel` from `cgf/mod.rs` (`chunks` is never populated by
`parse_with_options`, and no decoder produces physics data; their element
payloads are elided). -/
structure CgfModel where
  version : CgfVersion
  chunks : List Unit
  meshes : List Mesh
  materials : List MaterialRef
  skeleton : Option Skeleton
  nodes : List CgfNode
  morph_targets : List MorphTarget
  physics : Option Unit
deriving DecidableEq

/-- `CgfModel::new`. -/
def CgfModel.new (version : CgfVersion) : CgfModel :=
  { version := version, chunks := [], meshes := [], materials := [],
    skeleton := none, nodes := [], morph_targets := [], physics := none }

/-- `CgfParser::parse_header` (cgf/mod.rs lines 268-311): dialect
detection by magic, then chunk count and chunk-table offset. -/
def CgfParser.parse_header (f : List Nat) :
    Except ParseErr (CgfVersion × CgfHeader) := do
  let magic ← readE f 0 8
  let vres ←
    if magic = [0x43, 0x72, 0x79, 0x54, 0x65, 0x6B, 0, 0] then do
      let header_data ← readE f 8 8
      let version := u32at header_data 4
      Except.ok (CgfVersion.Legacy version, 16)
    else if slice magic 0 4 = [0x23, 0x69, 0x76, 0x6F] then
      Except.ok (CgfVersion.Ivo (u32at magic 4), 8)
    else if slice magic 0 4 = [0x43, 0x72, 0x43, 0x68] then
      Except.ok (CgfVersion.CrCh (u32at magic 4), 8)
    else
      Except.error (ParseErr.invalidMagic
        [0x43, 0x72, 0x79, 0x54, 0x65, 0x6B, 0, 0] magic)
  let header_bytes ← readE f vres.2 8
  .ok (vres.1, { chunk_count := u32at header_bytes 0
                 chunk_table_offset := u32at header_bytes 4 })

/-- `CgfParser::parse_chunk_header`: a 16-byte header, plus a trailing
size field in the Ivo and CrCh dialects; returns the header and the
position after it. -/
def CgfParser.parse_chunk_header (f : List Nat) (pos : Nat)
    (version : CgfVersion) : Except ParseErr (ChunkHeader × Nat) := do
  let hd ← readE f pos 16
  let base : ChunkHeader :=
    { chunk_type := ChunkType.from_u32 (u32at hd 0)
      version := u32at hd 4
      offset := u32at hd 8
      id := u32at hd 12
      size := 0 }
  match version with
  | .Ivo _ | .CrCh _ => do
    let sizeB ← readE f (pos + 16) 4
    .ok ({ base with size := leNat sizeB }, pos + 20)
  | .Legacy _ => .ok (base, pos + 16)

/-- Chunk-table loop of `CgfParser::parse_chunk_table`. -/
def CgfParser.parse_chunk_table_go (f : List Nat) (version : CgfVersion) :
    Nat → Nat → Except ParseErr (List ChunkHeader)
  | 0, _ => .ok []
  | n + 1, pos => do
    let r ← CgfParser.parse_chunk_header f pos version
    let rest ← CgfParser.parse_chunk_table_go f version n r.2
    .ok (r.1 :: rest)

/-- `CgfParser::parse_chunk_table`: seek to the chunk-table offset and
read `chunk_count` chunk headers. -/
def CgfParser.parse_chunk_table (f : List Nat) (header : CgfHeader)
    (version : CgfVersion) : Except ParseErr (List ChunkHeader) :=
  CgfParser.parse_chunk_table_go f version header.chunk_count
    header.chunk_table_offset

/-- Chunk loop of `CgfParser::parse_with_options` (cgf/mod.rs lines
1032-1086): every recognized arm decodes with `if let Ok(..)`, silently
dropping the chunk when its decoder fails; `BoneAnim` and `BoneNameList`
are skipped; every other type errors unless `skip_unknown_chunks` is
set. -/
def CgfParser.parse_chunks_loop (f : List Nat) (options : ParseOptions) :
    List ChunkHeader → CgfModel → Except ParseErr CgfModel
  | [], model => .ok model
  | ch :: rest, model =>
    match ch.chunk_type with
    | .Mesh | .MeshSubsets =>
      CgfParser.parse_chunks_loop f options rest
        (match parse_mesh_chunk f ch with
         | .ok mesh => { model with meshes := model.meshes ++ [mesh] }
         | .error _ => model)
    | .Node =>
      CgfParser.parse_chunks_loop f options rest
        (match parse_node_chunk f ch with
         | .ok node => { model with nodes := model.nodes ++ [node] }
         | .error _ => model)
    | .Material =>
      CgfParser.parse_chunks_loop f options rest
        (match parse_material_chunk f ch with
         | .ok material =>
           { model with materials := model.materials ++ [material] }
         | .error _ => model)
    | .CompiledBones =>
      CgfParser.parse_chunks_loop f options rest
        (match parse_compiled_bones_chunk f ch with
         | .ok skeleton => { model with skeleton := some skeleton }
         | .error _ => model)
    | .CompiledMesh =>
      CgfParser.parse_chunks_loop f options rest
        (match parse_compiled_mesh_chunk f ch with
         | .ok mesh => { model with meshes := model.meshes ++ [mesh] }
         | .error _ => model)
    | .CompiledMorphTargets =>
      CgfParser.parse_chunks_loop f options rest
        (match parse_compiled_morph_targets_chunk f ch with
         | .ok mts =>
           { model with morph_targets := model.morph_targets ++ mts }
         | .error _ => model)
    | .BoneAnim | .BoneNameList =>
      CgfParser.parse_chunks_loop f options rest model
    | other =>
      if ¬ options.skip_unknown_chunks then
        .error (.unknownChunkType other.to_u32)
      else
        CgfParser.parse_chunks_loop f options rest model

/-- `CgfParser::parse_with_options` (cgf/mod.rs lines 1004-1101). -/
def CgfParser.parse_with_options (f : List Nat) (options : ParseOptions) :
    Except ParseErr CgfModel := do
  let hr ← CgfParser.parse_header f
  let chunk_headers ← CgfParser.parse_chunk_table f hr.2 hr.1
  CgfParser.parse_chunks_loop f options chunk_headers (CgfModel.new hr.1)

/-! ### Matrix inversion for inverse-bind-pose (`cgf/bones.rs`)

The decoder loop of `parse_compiled_bones_chunk` and `invert_matrix` are
also stated over exact 4x4 integer matrices: both only move entries or
combine them with ring operations, and the concrete matrices the claims
use have small integer entries on which `f32` arithmetic is exact. -/

/-- 4x4 matrices with exact (integer) entries. -/
def Mat4 : Type := Fin 4 → Fin 4 → ℤ

/-- The identity matrix (`IDENTITY_MATRIX` in `cgf/bones.rs`). -/
def identityMat4 : Mat4 := fun i j => if i = j then 1 else 0

/-- The inverse-bind-pose computation of `parse_compiled_bones_chunk`
(cgf/mod.rs lines 681-687): a plain full 4x4 transpose of the bind
pose. -/
def compiledBonesInverseBindPose (m : Mat4) : Mat4 := fun r c => m c r

/-- `invert_matrix` from `cgf/bones.rs` lines 288-312: start from the
identity, transpose the upper-left 3x3 block, then negate-and-transform
the translation (row 3) by that transpose. -/
def invert_matrix (m : Mat4) : Mat4 := fun i j =>
  if (i : Nat) < 3 ∧ (j : Nat) < 3 then m j i
  else if (i : Nat) = 3 ∧ (j : Nat) < 3 then
    -(m j 0 * m 3 0 + m j 1 * m 3 1 + m j 2 * m 3 2)
  else identityMat4 i j

/-- `multiply_matrices` from `cgf/bones.rs` lines 271-285. -/
def multiply_matrices (a b : Mat4) : Mat4 := fun i j =>
  a i 0 * b 0 j + a i 1 * b 1 j + a i 2 * b 2 j + a i 3 * b 3 j

/-! ### DCB record database (`starbreaker-parsers/src/dcb`) -/

/-- `DataType` from `dcb/structs.rs`. -/
inductive DataType where
  | Boolean | Int8 | Int16 | Int32 | Int64
  | UInt8 | UInt16 | UInt32 | UInt64
  | Float | Double | String | Guid | LocaleString | Reference
  | Vec3 | Vec4 | Enum
  | Array (inner : DataType)
  | Unknown (t : Nat)
deriving DecidableEq

/-- `DataType::from_u32`: type codes 3 and 4 both map to `Int32`; a set
top bit wraps the masked inner code in `Array`. -/
def DataType.from_u32 (value : Nat) : DataType :=
  if value = 0 then .Boolean
  else if value = 1 then .Int8
  else if value = 2 then .Int16
  else if value = 3 ∨ value = 4 then .Int32
  else if value = 5 then .Int64
  else if value = 6 then .UInt8
  else if value = 7 then .UInt16
  else if value = 8 then .UInt32
  else if value = 9 then .UInt64
  else if value = 10 then .Float
  else if value = 11 then .Double
  else if value = 12 then .String
  else if value = 13 then .Guid
  else if value = 14 then .LocaleString
  else if value = 15 then .Reference
  else if value = 16 then .Vec3
  else if value = 17 then .Vec4
  else if value = 18 then .Enum
  else if h : value &&& 0x80000000 ≠ 0 then
    .Array (DataType.from_u32 (value &&& 0x7FFFFFFF))
  else .Unknown value
termination_by value
decreasing_by
  have h1 : value &&& 0x7FFFFFFF ≤ 0x7FFFFFFF := Nat.and_le_right
  have h30 : (0x80000000 : Nat) = 2 ^ 31 := by norm_num
  have h2 : value.testBit 31 = true := by
    by_contra hb
    rw [Bool.not_eq_true] at hb
    apply h
    rw [h30, Nat.and_two_pow, hb]
    simp
  have h3 : 2 ^ 31 ≤ value := by
    by_contra hlt
    rw [Nat.testBit_eq_false_of_lt (by omega)] at h2
    exact Bool.false_ne_true h2
  omega

/-- `StringTable` from `dcb/mod.rs` (strings kept as raw bytes; the
claims only use ASCII strings on which lossy decoding is the
identity). -/
structure StringTable where
  strings : List (List Nat)
  by_offset : List (Nat × Nat)
deriving DecidableEq

/-- `StringTable::get_by_offset`. -/
def StringTable.get_by_offset (t : StringTable) (offset : Nat) :
    Option (List Nat) :=
  ((t.by_offset.find? (fun p => p.1 == offset)).map (fun p => p.2)).bind
    (fun id => t.strings.get? id)

/-- `RecordRef` from `dcb/records.rs`. -/
structure RecordRef where
  record_id : Nat
  struct_id : Nat
deriving DecidableEq

/-- `RecordValue` from `dcb/records.rs`; floats are bit patterns, strings
raw bytes. -/
inductive RecordValue where
  | Boolean (v : Bool)
  | Int32 (v : Int)
  | Int64 (v : Int)
  | UInt32 (v : Nat)
  | UInt64 (v : Nat)
  | Float (bits : Nat)
  | Double (bits : Nat)
  | String (s : List Nat)
  | Guid (bytes : List Nat)
  | Reference (r : RecordRef)
  | Vec3 (v : List Nat)
  | Vec4 (v : List Nat)
  | Enum (v : Nat)
  | Array (elems : List RecordValue)
  | LocaleString (key value : List Nat)
  | Unknown (t : Nat)

/-- `StructDef` from `dcb/structs.rs`. -/
structure StructDef where
  id : Nat
  name : List Nat
  parent_id : Option Nat
  property_start : Nat
  property_count : Nat
  size : Nat
  flags : Nat
deriving DecidableEq

/-- `PropertyDef` from `dcb/structs.rs`. -/
structure PropertyDef where
  id : Nat
  name : List Nat
  data_type : DataType
  struct_id : Option Nat
  conversion : Nat
deriving DecidableEq

/-- Two's-complement interpretation of an 8-bit value. -/
def i8ofNat (n : Nat) : Int :=
  if n < 2 ^ 7 then (n : Int) else (n : Int) - 2 ^ 8

/-- Two's-complement interpretation of a 16-bit value. -/
def i16ofNat (n : Nat) : Int :=
  if n < 2 ^ 15 then (n : Int) else (n : Int) - 2 ^ 16

/-- Two's-complement interpretation of a 64-bit value. -/
def i64ofNat (n : Nat) : Int :=
  if n < 2 ^ 63 then (n : Int) else (n : Int) - 2 ^ 64

/-- `DcbParser::read_value` (dcb/mod.rs lines 446-570), the eager value
decoder: one wire value at `pos`, returning the value and the position
after it.  The source's `match` has no `Vec4` or `LocaleString` arm
(it is non-exhaustive there); those two cases are modelled as an
invalid-structure error.  The `Array` arm reads only the 4-byte element
count and yields an empty array, as the source does. -/
def DcbParser.read_value (f : List Nat) (pos : Nat) (data_type : DataType)
    (strings : StringTable) : Except ParseErr (RecordValue × Nat) :=
  match data_type with
  | .Boolean => do
    let b ← readE f pos 1
    .ok (.Boolean (leNat b ≠ 0), pos + 1)
  | .Int8 => do
    let b ← readE f pos 1
    .ok (.Int32 (i8ofNat (leNat b)), pos + 1)
  | .Int16 => do
    let b ← readE f pos 2
    .ok (.Int32 (i16ofNat (leNat b)), pos + 2)
  | .Int32 => do
    let b ← readE f pos 4
    .ok (.Int32 (i32ofNat (leNat b)), pos + 4)
  | .Int64 => do
    let b ← readE f pos 8
    .ok (.Int64 (i64ofNat (leNat b)), pos + 8)
  | .UInt8 => do
    let b ← readE f pos 1
    .ok (.UInt32 (leNat b), pos + 1)
  | .UInt16 => do
    let b ← readE f pos 2
    .ok (.UInt32 (leNat b), pos + 2)
  | .UInt32 => do
    let b ← readE f pos 4
    .ok (.UInt32 (leNat b), pos + 4)
  | .UInt64 => do
    let b ← readE f pos 8
    .ok (.UInt64 (leNat b), pos + 8)
  | .Float => do
    let b ← readE f pos 4
    .ok (.Float (leNat b), pos + 4)
  | .Double => do
    let b ← readE f pos 8
    .ok (.Double (leNat b), pos + 8)
  | .String => do
    let b ← readE f pos 4
    let s := (strings.get_by_offset (leNat b)).getD []
    .ok (.String s, pos + 4)
  | .Guid => do
    let b ← readE f pos 16
    .ok (.Guid b, pos + 16)
  | .Reference => do
    let b ← readE f pos 8
    .ok (.Reference ⟨u32at b 0, u32at b 4⟩, pos + 8)
  | .Vec3 => do
    let b ← readE f pos 12
    .ok (.Vec3 (le32x3 b), pos + 12)
  | .Enum => do
    let b ← readE f pos 4
    .ok (.Enum (leNat b), pos + 4)
  | .Array _ => do
    let _count ← readE f pos 4
    .ok (.Array [], pos + 4)
  | .Unknown t => .ok (.Unknown t, pos)
  | .Vec4 => .error .invalidStructure
  | .LocaleString => .error .invalidStructure

/-- `LazyDataCore::read_value` (dcb/datacore.rs lines 179-248), the lazy
value decoder: handles only a subset of the type system; every other
type falls to the catch-all `_ => RecordValue::Unknown(0)`, consuming no
bytes. -/
def LazyDataCore.read_value (f : List Nat) (pos : Nat)
    (data_type : DataType) (strings : StringTable) :
    Except ParseErr (RecordValue × Nat) :=
  match data_type with
  | .Boolean => do
    let b ← readE f pos 1
    .ok (.Boolean (leNat b ≠ 0), pos + 1)
  | .Int32 => do
    let b ← readE f pos 4
    .ok (.Int32 (i32ofNat (leNat b)), pos + 4)
  | .Int64 => do
    let b ← readE f pos 8
    .ok (.Int64 (i64ofNat (leNat b)), pos + 8)
  | .UInt32 => do
    let b ← readE f pos 4
    .ok (.UInt32 (leNat b), pos + 4)
  | .UInt64 => do
    let b ← readE f pos 8
    .ok (.UInt64 (leNat b), pos + 8)
  | .Float => do
    let b ← readE f pos 4
    .ok (.Float (leNat b), pos + 4)
  | .Double => do
    let b ← readE f pos 8
    .ok (.Double (leNat b), pos + 8)
  | .String => do
    let b ← readE f pos 4
    let s := (strings.get_by_offset (leNat b)).getD []
    .ok (.String s, pos + 4)
  | .Vec3 => do
    let b ← readE f pos 12
    .ok (.Vec3 (le32x3 b), pos + 12)
  | .Vec4 => do
    let b ← readE f pos 16
    .ok (.Vec4 [u32at b 0, u32at b 4, u32at b 8, u32at b 12], pos + 16)
  | _ => .ok (.Unknown 0, pos)

/-- `HashMap::insert` for a record's value map. -/
def valuesInsert (m : List (List Nat × RecordValue)) (k : List Nat)
    (v : RecordValue) : List (List Nat × RecordValue) :=
  if m.any (fun p => p.1 == k) then
    m.map (fun p => if p.1 == k then (k, v) else p)
  else m ++ [(k, v)]

/-- Value loop of `DcbParser::parse_record_values` (dcb/mod.rs lines
423-443): `n` property slots starting at table index `i`; a missing
property definition is silently skipped. -/
def DcbParser.read_values_go (f : List Nat) (strings : StringTable)
    (properties : List PropertyDef) :
    Nat → Nat → Nat → List (List Nat × RecordValue) →
    Except ParseErr (List (List Nat × RecordValue) × Nat)
  | 0, _, pos, values => .ok (values, pos)
  | n + 1, i, pos, values =>
    match properties.get? i with
    | some prop => do
      let r ← DcbParser.read_value f pos prop.data_type strings
      DcbParser.read_values_go f strings properties n (i + 1) r.2
        (valuesInsert values prop.name r.1)
    | none =>
      DcbParser.read_values_go f strings properties n (i + 1) pos values

/-- `DcbParser::parse_record_values`: decode the value map of one record
whose values start at `pos`, per the schema's property range. -/
def DcbParser.parse_record_values (f : List Nat) (pos : Nat)
    (struct_def : StructDef) (properties : List PropertyDef)
    (strings : StringTable) :
    Except ParseErr (List (List Nat × RecordValue) × Nat) :=
  DcbParser.read_values_go f strings properties struct_def.property_count
    struct_def.property_start pos []

/-- Value loop of `LazyDataCore::load_record_values` (dcb/datacore.rs
lines 164-173) — identical shape to the eager loop, but using the lazy
value decoder. -/
def LazyDataCore.read_values_go (f : List Nat) (strings : StringTable)
    (properties : List PropertyDef) :
    Nat → Nat → Nat → List (List Nat × RecordValue) →
    Except ParseErr (List (List Nat × RecordValue) × Nat)
  | 0, _, pos, values => .ok (values, pos)
  | n + 1, i, pos, values =>
    match properties.get? i with
    | some prop => do
      let r ← LazyDataCore.read_value f pos prop.data_type strings
      LazyDataCore.read_values_go f strings properties n (i + 1) r.2
        (valuesInsert values prop.name r.1)
    | none =>
      LazyDataCore.read_values_go f strings properties n (i + 1) pos values

/-- `LazyDataCore::load_record_values` (dcb/datacore.rs lines 145-176):
seek to the record's value offset, resolve the schema, and decode the
value map with the lazy decoder.  `LazyRecord::to_record` (and hence
`to_eager`) obtains each record's map through this function. -/
def LazyDataCore.load_record_values (f : List Nat) (offset : Nat)
    (struct_id : Nat) (structs : List StructDef)
    (properties : List PropertyDef) (strings : StringTable) :
    Except ParseErr (List (List Nat × RecordValue) × Nat) :=
  match structs.get? struct_id with
  | none => .error .invalidStructure
  | some struct_def =>
    LazyDataCore.read_values_go f strings properties
      struct_def.property_count struct_def.property_start offset []

/-- The property types on which the lazy value decoder has an explicit
arm that agrees with the eager decoder. -/
def lazyEagerAgree : DataType → Bool
  | .Boolean | .Int32 | .Int64 | .UInt32 | .UInt64
  | .Float | .Double | .String | .Vec3 => true
  | _ => false

/-- The chunk types carrying a decoding arm (or an explicit skip) in the
chunk loop of `CgfParser::parse_with_options`; every other type reaches
the catch-all arm. -/
def handledChunkType : ChunkType → Bool
  | .Mesh | .MeshSubsets | .Node | .Material | .CompiledBones
  | .CompiledMesh | .CompiledMorphTargets | .BoneAnim | .BoneNameList =>
    true
  | _ => false

/-! ### Concrete inputs used by the claim theorems -/

/-- Codec stubs for the claims, none of which exercises a compressed
entry. -/
def impls0 : CompressionImpls :=
  { deflate := fun _ _ => .error .unsupportedFeature
    zstd := fun _ _ => .error .unsupportedFeature
    lz4 := fun _ _ => .error .unsupportedFeature }

/-- A complete store-compressed archive with one entry `"a"` holding the
byte `0x41`, whose central-directory record declares CRC-32 `0`
(deliberately wrong: the CRC-32 of `0x41` is `0xD3D99E8B`).  Layout:
local file header (30 bytes), payload (1 byte), central-directory entry
(47 bytes), EOCD (22 bytes). -/
def c1Archive : List Nat :=
  [0x50, 0x4B, 0x03, 0x04] ++ List.replicate 26 0 ++ [0x41] ++
  ([0x50, 0x4B, 0x01, 0x02] ++ List.replicate 12 0 ++
   [0, 0, 0, 0] ++ [1, 0, 0, 0] ++ [1, 0, 0, 0] ++
   [1, 0] ++ [0, 0] ++ [0, 0] ++ [0, 0] ++ [0, 0] ++
   [0, 0, 0, 0] ++ [0, 0, 0, 0] ++ [0x61]) ++
  ([0x50, 0x4B, 0x05, 0x06] ++ [0, 0, 0, 0] ++ [1, 0] ++ [1, 0] ++
   [47, 0, 0, 0] ++ [31, 0, 0, 0] ++ [0, 0])

/-- A lone local file header plus the payload byte `0x41`. -/
def c1File : List Nat :=
  [0x50, 0x4B, 0x03, 0x04] ++ List.replicate 26 0 ++ [0x41]

/-- The entry for `c1File` with the correct CRC-32 of `0x41`
(`0xD3D99E8B = 3554254475`). -/
def c1GoodEntry : P4kEntry :=
  ⟨[0x61], .store, 3554254475, 1, 1, 0, 0, 0, 0, false, false⟩

/-- A ZIP64 extension block: tag `0x0001`, size 8, one 64-bit field
holding `999`. -/
def zip64Extra : List Nat := [1, 0, 8, 0] ++ [231, 3, 0, 0, 0, 0, 0, 0]

/-- A zero-entry archive: nothing but the end-of-central-directory
record. -/
def emptyArchiveBytes : List Nat :=
  [0x50, 0x4B, 0x05, 0x06] ++ List.replicate 18 0

/-- A compiled-mesh chunk payload declaring one vertex and zero streams
(32-byte header only). -/
def c3Bytes : List Nat :=
  [0, 0, 0, 0, 1, 0, 0, 0, 0, 0, 0, 0, 0, 0, 0, 0, 0, 0, 0, 0] ++
  List.replicate 12 0

/-- Chunk header for `c3Bytes`. -/
def c3Hdr : ChunkHeader := ⟨.CompiledMesh, 0, 0, 5, 0⟩

/-- The single vertex produced by decoding `c3Bytes`: all components
defaulted. -/
def c3Vertex : Vertex :=
  { position := [0, 0, 0]
    normal := [0, f32One, 0]
    uv := [[0, 0]]
    color := none
    tangent := none
    bone_weights := none
    bone_indices := none }

/-- The mesh produced by decoding `c3Bytes`: the missing streams default
to position `[0,0,0]`, normal `[0,1,0]` and UV `[0,0]` (as bit
patterns). -/
def c3Mesh : Mesh :=
  { name := "CompiledMesh_5"
    vertices := [c3Vertex]
    faces := []
    subsets := []
    bounding_box := none }

/-- An `"#ivo"` file (version 900) with one chunk-table entry of type
`0xCCCC0000` (compiled mesh) whose payload offset `9999` lies past the
end of the file, so its decoder must fail. -/
def cgfCexBytes : List Nat :=
  [0x23, 0x69, 0x76, 0x6F] ++ [0x84, 3, 0, 0] ++ [1, 0, 0, 0] ++
  [16, 0, 0, 0] ++
  ([0, 0, 0xCC, 0xCC] ++ [0, 0, 0, 0] ++ [0x0F, 0x27, 0, 0] ++
   [7, 0, 0, 0] ++ [0, 0, 0, 0])

/-- The chunk header parsed from `cgfCexBytes`. -/
def cgfCexHdr : ChunkHeader := ⟨.CompiledMesh, 0, 9999, 7, 0⟩

/-- Parse options with `skip_unknown_chunks` off, so no error could be
attributed to unknown-chunk skipping. -/
def optsNoSkip : ParseOptions :=
  { ParseOptions.default with skip_unknown_chunks := false }

/-- A bind pose for C5: the identity with translation 1 along x stored in
row 3 (the translation row used by `invert_matrix`). -/
def c5BindPose : Mat4 := fun i j =>
  if i = j then 1 else if i = 3 ∧ j = 0 then 1 else 0

/-- A compiled-bones chunk payload with one bone named `"a"` whose parent
index is `0` — its own index. -/
def c6Bytes : List Nat :=
  [1, 0, 0, 0] ++ [1, 0, 0, 0] ++ [0x61] ++ [0, 0, 0, 0] ++
  [0, 0, 0, 0] ++ List.replicate 128 0

/-- Chunk header for `c6Bytes`. -/
def c6Hdr : ChunkHeader := ⟨.CompiledBones, 0, 0, 3, 0⟩

/-- A two-bone skeleton (root and one child) that passes validation. -/
def c6GoodSkel : Skeleton :=
  { bones :=
      [{ name := [0x72], parent_index := none, controller_id := 0,
         local_transform := [], bind_pose := [], inverse_bind_pose := [],
         physics := none, limits := none },
       { name := [0x63], parent_index := some 0, controller_id := 0,
         local_transform := [], bind_pose := [], inverse_bind_pose := [],
         physics := none, limits := none }]
    bone_map := [([0x72], 0), ([0x63], 1)]
    root_bones := [0] }

/-- A property of type `Int8` named `"p"`. -/
def c2Prop : PropertyDef := ⟨0, [0x70], .Int8, none, 0⟩

/-- A schema with exactly the one `Int8` property. -/
def c2Struct : StructDef := ⟨0, [0x53], none, 0, 1, 1, 0⟩

/-- An empty string table. -/
def c2Strings : StringTable := ⟨[], []⟩

/-- Two properties (a boolean and a `u32`) on which the lazy and eager
decoders agree. -/
def c2wProps : List PropertyDef :=
  [⟨0, [0x62], .Boolean, none, 0⟩, ⟨1, [0x75], .UInt32, none, 0⟩]

/-- A schema covering both properties of `c2wProps`. -/
def c2wStruct : StructDef := ⟨0, [0x53], none, 0, 2, 5, 0⟩

/-- Wire bytes of one record for `c2wStruct`: `true` then `5 : u32`. -/
def c2wBytes : List Nat := [1, 5, 0, 0, 0]

/-! ## Theorems -/

/-- C1 (counterexample): `extract_entry` succeeds on an archive whose
entry record stores CRC-32 `0`, yet the CRC-32 of the returned bytes is
not `0` — the parser's extraction performs no CRC verification. -/
theorem c1_extract_entry_skips_crc_counterexample :
    P4kParser.extract_entry impls0 c1Archive [0x61] = .ok [0x41] ∧
    (P4kParser.parse c1Archive).map
      (fun a => a.entries.map P4kEntry.crc32) = .ok [0] ∧
    crc32 [0x41] ≠ 0 :=
  ⟨by decide, by decide, by decide⟩

/-- C1 (amended): the CRC-32 check lives in the VFS mount's
`read_entry_data`, not in `P4kParser::extract_entry`: whenever
`read_entry_data` succeeds, the CRC-32 of the returned bytes equals the
entry's stored CRC-32. -/
theorem c1_read_entry_data_verifies_crc
    (impls : CompressionImpls) (f : List Nat) (entry : P4kEntry)
    (out : List Nat)
    (h : P4kMount.read_entry_data impls f entry = .ok out) :
    crc32 out = entry.crc32 := by
  unfold P4kMount.read_entry_data at h
  simp only [bind, Except.bind] at h
  repeat any_goals split at h
  all_goals simp_all [verify_crc32, beq_iff_eq]

/-- Witness for C1: a store entry with the correct CRC-32 of its payload
reads back successfully, and the theorem yields the CRC equation at that
input. -/
theorem c1_read_entry_data_verifies_crc_witness :
    crc32 [0x41] = c1GoodEntry.crc32 :=
  c1_read_entry_data_verifies_crc impls0 c1File c1GoodEntry [0x41]
    (by decide)

/-- C5: the compiled-bones decoder computes the inverse-bind-pose as a
plain full 4x4 transpose, which differs from the
transpose-and-negate-translation formula of `invert_matrix` (the claim's
formula) on any bind pose with a nonzero translation — here the identity
translated by 1 along x.  `invert_matrix` really inverts that bind pose
(their product is the identity); the decoder's transpose does not. -/
theorem c5_inverse_bind_pose_is_plain_transpose :
    compiledBonesInverseBindPose c5BindPose 0 3 = 1 ∧
    compiledBonesInverseBindPose c5BindPose 3 0 = 0 ∧
    invert_matrix c5BindPose 3 0 = -1 ∧
    compiledBonesInverseBindPose c5BindPose 3 0 ≠
      invert_matrix c5BindPose 3 0 ∧
    (∀ i j : Fin 4,
      multiply_matrices c5BindPose (invert_matrix c5BindPose) i j =
        identityMat4 i j) ∧
    ¬ (∀ i j : Fin 4,
      multiply_matrices c5BindPose
        (compiledBonesInverseBindPose c5BindPose) i j = identityMat4 i j) :=
  ⟨by decide, by decide, by decide, by decide, by decide, by decide⟩

/-- C7: with a ZIP64 extension present, a compressed-size field holding
the ZIP64 sentinel `0xFFFFFFFF` is NOT promoted (the code compares
against `0xFFFFFFF`), while the non-sentinel value `0x0FFFFFFF` IS
promoted — refuting promotion exactly at the sentinel. -/
theorem c7_zip64_sentinel_comparison :
    parse_zip64_extra zip64Extra 0xFFFFFFFF 5 7 = (0xFFFFFFFF, 5, 7) ∧
    parse_zip64_extra zip64Extra 0x0FFFFFFF 5 7 = (999, 5, 7) :=
  ⟨by decide, by decide⟩

/-- C8 (counterexample): decompressing with the store tag succeeds even
when the byte count differs from the expected length. -/
theorem c8_store_no_length_check_counterexample :
    P4kCompression.decompress impls0 [0] .store 2 = .ok [0] ∧
    ([0] : List Nat).length ≠ 2 :=
  ⟨rfl, by decide⟩

/-- C8 (amended): the store arm is the unconditional identity — it
returns the input bytes for every expected length and never fails. -/
theorem c8_store_identity (impls : CompressionImpls) (data : List Nat)
    (expected_size : Nat) :
    P4kCompression.decompress impls data .store expected_size = .ok data :=
  rfl

/-- C10: archive parsing fails with an invalid-magic error on every
stream whose first four bytes differ from the local-file-header
signature. -/
theorem c10_parse_rejects_non_local_magic
    (f : List Nat) (options : ParseOptions) (hlen : 4 ≤ f.length)
    (hmagic : f.take 4 ≠ [0x50, 0x4B, 0x03, 0x04]) :
    P4kParser.parse_with_options f options =
      .error (.invalidMagic [0x50, 0x4B, 0x03, 0x04] (f.take 4)) := by
  unfold P4kParser.parse_with_options
  simp only [readE, readExact, List.drop_zero, bind, Except.bind]
  rw [if_pos (by omega)]
  simp [hmagic]

/-- Witness for C10: the zero-entry archive (an EOCD record alone) is
rejected with an invalid-magic error, even though it is otherwise a
well-formed archive. -/
theorem c10_parse_rejects_non_local_magic_witness :
    P4kParser.parse_with_options emptyArchiveBytes ParseOptions.default =
      .error (.invalidMagic [0x50, 0x4B, 0x03, 0x04]
        [0x50, 0x4B, 0x05, 0x06]) := by
  have h := c10_parse_rejects_non_local_magic emptyArchiveBytes
    ParseOptions.default (by decide) (by decide)
  rw [show emptyArchiveBytes.take 4 = [0x50, 0x4B, 0x05, 0x06]
    from by decide] at h
  exact h

/-- C6 (counterexample): a compiled-bones chunk whose only bone names
itself as parent parses successfully — the decoder validates nothing. -/
theorem c6_self_parent_counterexample :
    (parse_compiled_bones_chunk c6Bytes c6Hdr).map
      (fun s => s.bones.map Bone.parent_index) = .ok [some 0] ∧
    (parse_compiled_bones_chunk c6Bytes c6Hdr).map
      (fun s => s.bones.length) = .ok 1 :=
  ⟨by decide, by decide⟩

/-- C3 (counterexample): a compiled-mesh chunk declaring one vertex and
no streams at all — hence no position stream — parses successfully, with
positions defaulted to `[0,0,0]` instead of failing. -/
theorem c3_missing_position_not_fatal_counterexample :
    parse_compiled_mesh_chunk c3Bytes c3Hdr = .ok c3Mesh ∧
    mesh_stream_scan c3Bytes 1 0 32 = some ([], 32) :=
  ⟨by decide, by decide⟩

/-- C4 (counterexample): the compiled-mesh decoder fails on this chunk
(its payload offset lies past the end of the file), yet `parse` returns a
model with no meshes instead of an error. -/
theorem c4_chunk_error_swallowed_counterexample :
    parse_compiled_mesh_chunk cgfCexBytes cgfCexHdr = .error .ioError ∧
    (CgfParser.parse_with_options cgfCexBytes optsNoSkip).map
      (fun m => m.meshes) = .ok [] :=
  ⟨by decide, by decide⟩

/-- C2 (counterexample): for a record with a single `Int8` property and
wire byte `5`, the eager parse yields `Int32 5` (consuming the byte)
while the lazy load yields `Unknown 0` (consuming nothing) — the value
maps differ. -/
theorem c2_lazy_int8_counterexample :
    DcbParser.parse_record_values [5] 0 c2Struct [c2Prop] c2Strings =
      .ok ([([0x70], .Int32 5)], 1) ∧
    LazyDataCore.load_record_values [5] 0 0 [c2Struct] [c2Prop]
      c2Strings = .ok ([([0x70], .Unknown 0)], 0) ∧
    RecordValue.Int32 5 ≠ RecordValue.Unknown 0 :=
  ⟨rfl, rfl, fun h => RecordValue.noConfusion h⟩

/-- On every property type of the agreement set the two value decoders
are the same function. -/
lemma read_value_agree (f : List Nat) (pos : Nat) (dt : DataType)
    (strings : StringTable) (h : lazyEagerAgree dt = true) :
    LazyDataCore.read_value f pos dt strings =
      DcbParser.read_value f pos dt strings := by
  cases dt <;> first | rfl | simp [lazyEagerAgree] at h

/-- The two value loops agree when every property in the decoded range
has a type from the agreement set. -/
lemma read_values_go_agree (f : List Nat) (strings : StringTable)
    (properties : List PropertyDef) :
    ∀ (n start pos : Nat) (values : List (List Nat × RecordValue)),
      (∀ i ∈ List.range n,
        ((properties.get? (start + i)).all
          (fun prop => lazyEagerAgree prop.data_type)) = true) →
      LazyDataCore.read_values_go f strings properties n start pos values =
        DcbParser.read_values_go f strings properties n start pos values := by
  intro n
  induction n with
  | zero => intro start pos values _; rfl
  | succ n ih =>
    intro start pos values hall
    have hshift : ∀ i ∈ List.range n,
        ((properties.get? (start + 1 + i)).all
          (fun prop => lazyEagerAgree prop.data_type)) = true := by
      intro i hi
      have hmem : i + 1 ∈ List.range (n + 1) := by
        simp only [List.mem_range] at hi ⊢; omega
      have := hall (i + 1) hmem
      have heq : start + (i + 1) = start + 1 + i := by omega
      rwa [heq] at this
    simp only [LazyDataCore.read_values_go, DcbParser.read_values_go]
    cases hp : properties.get? start with
    | none =>
      dsimp only
      exact ih (start + 1) pos values hshift
    | some prop =>
      dsimp only
      have hagree : lazyEagerAgree prop.data_type = true := by
        have h0 := hall 0 (by simp)
        rw [Nat.add_zero, hp] at h0
        simpa [Option.all] using h0
      rw [read_value_agree f pos prop.data_type strings hagree]
      simp only [bind, Except.bind]
      cases hv : DcbParser.read_value f pos prop.data_type strings with
      | error e => rfl
      | ok r =>
        exact ih (start + 1) r.2 (valuesInsert values prop.name r.1) hshift

/-- C2 (amended): lazy loading agrees with the eager parse exactly on the
nine types both decoders implement identically (Boolean, Int32, Int64,
UInt32, UInt64, Float, Double, String, Vec3): when every property of the
record's schema range has such a type, `load_record_values` returns the
same value map (and end position) as the eager `parse_record_values` on
the same bytes.  Outside that set the two differ: the lazy reader's
remaining explicit arm, Vec4, has no counterpart in the eager decoder,
and every other type falls through the lazy catch-all to `Unknown 0`
without consuming bytes. -/
theorem c2_lazy_eager_agree_on_supported_types
    (f : List Nat) (strings : StringTable) (structs : List StructDef)
    (properties : List PropertyDef) (struct_id offset : Nat)
    (sd : StructDef) (hsd : structs.get? struct_id = some sd)
    (hagree : ∀ i ∈ List.range sd.property_count,
      ((properties.get? (sd.property_start + i)).all
        (fun prop => lazyEagerAgree prop.data_type)) = true) :
    LazyDataCore.load_record_values f offset struct_id structs properties
      strings =
      DcbParser.parse_record_values f offset sd properties strings := by
  unfold LazyDataCore.load_record_values DcbParser.parse_record_values
  rw [hsd]
  exact read_values_go_agree f strings properties sd.property_count
    sd.property_start offset [] hagree

/-- Witness for C2: on a boolean and a `u32` property the lazy load and
the eager parse produce the same value map. -/
theorem c2_lazy_eager_agree_witness :
    LazyDataCore.load_record_values c2wBytes 0 0 [c2wStruct] c2wProps
      c2Strings =
      DcbParser.parse_record_values c2wBytes 0 c2wStruct c2wProps
        c2Strings :=
  c2_lazy_eager_agree_on_supported_types c2wBytes c2Strings [c2wStruct]
    c2wProps 0 0 c2wStruct rfl (by decide)

/-- The chunk loop never fails when every chunk's type has a decoding (or
skip) arm, regardless of whether the decoders themselves fail. -/
lemma parse_chunks_loop_ok (f : List Nat) (options : ParseOptions) :
    ∀ (chunks : List ChunkHeader) (model : CgfModel),
      (∀ ch ∈ chunks, handledChunkType ch.chunk_type = true) →
      (CgfParser.parse_chunks_loop f options chunks model).isOk = true := by
  intro chunks
  induction chunks with
  | nil =>
    intro model _
    simp [CgfParser.parse_chunks_loop, Except.isOk, Except.toBool]
  | cons ch rest ih =>
    intro model hall
    have hch := hall ch (List.mem_cons_self ch rest)
    have hrest : ∀ c ∈ rest, handledChunkType c.chunk_type = true :=
      fun c hc => hall c (List.mem_cons_of_mem ch hc)
    simp only [CgfParser.parse_chunks_loop]
    cases htype : ch.chunk_type <;>
      rw [htype] at hch <;>
      (try dsimp only [handledChunkType] at hch) <;>
      (try dsimp only) <;>
      first
        | exact Bool.noConfusion hch
        | (split <;> exact ih _ hrest)
        | exact ih _ hrest

/-- C4 (amended): decoder failures on recognized chunks are swallowed:
whenever the header and the chunk table parse and every chunk type is one
of the handled kinds, `parse` succeeds — even if some chunk decoders
fail.  Errors can only come from the header, the chunk table, or an
unhandled chunk type with `skip_unknown_chunks` off. -/
theorem c4_parse_succeeds_on_handled_chunks
    (f : List Nat) (options : ParseOptions) (version : CgfVersion)
    (header : CgfHeader) (chunks : List ChunkHeader)
    (hheader : CgfParser.parse_header f = .ok (version, header))
    (htable : CgfParser.parse_chunk_table f header version = .ok chunks)
    (hhandled : ∀ ch ∈ chunks, handledChunkType ch.chunk_type = true) :
    (CgfParser.parse_with_options f options).isOk = true := by
  unfold CgfParser.parse_with_options
  simp only [bind, Except.bind, hheader, htable]
  exact parse_chunks_loop_ok f options chunks (CgfModel.new version)
    hhandled

/-- Witness for C4: the file whose sole compiled-mesh chunk fails to
decode still parses successfully. -/
theorem c4_parse_succeeds_on_handled_chunks_witness :
    (CgfParser.parse_with_options cgfCexBytes optsNoSkip).isOk = true :=
  c4_parse_succeeds_on_handled_chunks cgfCexBytes optsNoSkip
    (.Ivo 900) ⟨1, 16⟩ [cgfCexHdr] (by decide) (by decide) (by decide)

/-- Characterization of the validation loop: it succeeds from counter
`start` exactly when every bone's present parent index is in range and
differs from the bone's running index. -/
lemma validateGo_ok_iff (total : Nat) :
    ∀ (bones : List Bone) (start : Nat),
      Skeleton.validateGo total bones start = .ok () ↔
      ∀ i b p, bones.get? i = some b → b.parent_index = some p →
        p < total ∧ p ≠ start + i := by
  intro bones
  induction bones with
  | nil =>
    intro start
    simp [Skeleton.validateGo]
  | cons b rest ih =>
    intro start
    simp only [Skeleton.validateGo]
    cases hbp : b.parent_index with
    | none =>
      dsimp only
      rw [ih (start + 1)]
      constructor
      · intro hAll i bb p hg hp
        cases i with
        | zero =>
          rw [List.get?_cons_zero] at hg
          cases hg
          rw [hbp] at hp
          cases hp
        | succ i =>
          rw [List.get?_cons_succ] at hg
          have := hAll i bb p hg hp
          exact ⟨this.1, by omega⟩
      · intro hAll i bb p hg hp
        have := hAll (i + 1) bb p (by rw [List.get?_cons_succ]; exact hg)
          hp
        exact ⟨this.1, by omega⟩
    | some parent =>
      dsimp only
      by_cases h1 : parent ≥ total
      · rw [if_pos h1]
        constructor
        · intro hc; cases hc
        · intro hAll
          have := hAll 0 b parent (List.get?_cons_zero) hbp
          omega
      · rw [if_neg h1]
        by_cases h2 : parent = start
        · rw [if_pos h2]
          constructor
          · intro hc; cases hc
          · intro hAll
            have := hAll 0 b parent (List.get?_cons_zero) hbp
            omega
        · rw [if_neg h2, ih (start + 1)]
          constructor
          · intro hAll i bb p hg hp
            cases i with
            | zero =>
              rw [List.get?_cons_zero] at hg
              cases hg
              rw [hbp] at hp
              cases hp
              exact ⟨by omega, by omega⟩
            | succ i =>
              rw [List.get?_cons_succ] at hg
              have := hAll i bb p hg hp
              exact ⟨this.1, by omega⟩
          · intro hAll i bb p hg hp
            have := hAll (i + 1) bb p (by simpa using hg) hp
            exact ⟨this.1, by omega⟩

/-- C6 (amended): the compiled-bones decoder performs no parent-index
validation (the counterexample parses a self-parent bone), but the
in-range/non-self check the claim describes is exactly
`Skeleton::validate`, which succeeds precisely when every present parent
index is strictly below the bone count and different from its bone's own
index — the decoder just never calls it. -/
theorem c6_validate_ok_iff (s : Skeleton) :
    Skeleton.validate s = .ok () ↔
    ∀ i b p, s.bones.get? i = some b → b.parent_index = some p →
      p < s.bones.length ∧ p ≠ i := by
  have h := validateGo_ok_iff s.bones.length s.bones 0
  simpa [Skeleton.validate] using h

/-- Witness for C6: validation of a concrete two-bone skeleton succeeds,
and the theorem turns that into the in-range/non-self facts for its child
bone. -/
theorem c6_validate_ok_iff_witness :
    0 < c6GoodSkel.bones.length ∧ (0 : Nat) ≠ 1 :=
  (c6_validate_ok_iff c6GoodSkel).mp (by decide) 1
    ⟨[0x63], some 0, 0, [], [], [], none, none⟩ 0 (by decide) rfl

/-- A successful `readExact` returns the slice and implies the bound. -/
lemma readExact_some {f : List Nat} {pos n : Nat} {bs : List Nat}
    (h : readExact f pos n = some bs) :
    bs = slice f pos n ∧ pos + n ≤ f.length := by
  unfold readExact at h
  split at h
  · exact ⟨(Option.some.inj h).symm, by assumption⟩
  · cases h

/-- A successful `readChunks` implies the bound. -/
lemma readChunks_some_le {f : List Nat} {pos count sz : Nat}
    {cs : List (List Nat)} (h : readChunks f pos count sz = some cs) :
    pos + count * sz ≤ f.length := by
  unfold readChunks at h
  split at h
  · assumption
  · cases h

/-- Looking anything up in a replicated list and defaulting to the
replicated element always yields that element. -/
lemma getD_get?_replicate (n i : Nat) {α : Type} (a : α) :
    ((List.replicate n a).get? i).getD a = a := by
  induction n generalizing i with
  | zero => simp
  | succ n ih =>
    cases i with
    | zero => simp [List.replicate]
    | succ i => simpa [List.replicate] using ih i

/-- The ghost scanner agrees with the stream loop: a successful stream
parse determines the declared stream types and the same end position, and
an accumulator is untouched when its stream type is not declared. -/
lemma parse_mesh_streams_scan (f : List Nat) (vc : Nat) :
    ∀ (n pos : Nat) (acc acc' : StreamAcc) (pos' : Nat),
      parse_mesh_streams f vc n pos acc = .ok (acc', pos') →
      ∃ types, mesh_stream_scan f vc n pos = some (types, pos') ∧
        ((0 : Nat) ∉ types → acc'.positions = acc.positions) ∧
        ((1 : Nat) ∉ types → acc'.normals = acc.normals) ∧
        ((2 : Nat) ∉ types → acc'.uvs = acc.uvs) := by
  intro n
  induction n with
  | zero =>
    intro pos acc acc' pos' h
    simp only [parse_mesh_streams, Except.ok.injEq, Prod.mk.injEq] at h
    obtain ⟨rfl, rfl⟩ := h
    exact ⟨[], rfl, fun _ => rfl, fun _ => rfl, fun _ => rfl⟩
  | succ n ih =>
    intro pos acc acc' pos' h
    simp only [parse_mesh_streams, readE, bind, Except.bind] at h
    cases hr1 : readExact f pos 4 with
    | none => rw [hr1] at h; simp at h
    | some tb =>
    rw [hr1] at h
    cases hr2 : readExact f (pos + 4) 4 with
    | none => rw [hr2] at h; simp at h
    | some sb =>
    rw [hr2] at h
    dsimp only at h
    by_cases h0 : leNat tb = 0
    · rw [if_pos h0] at h
      simp only [readChunksE] at h
      cases hc : readChunks f (pos + 8) vc 12 with
      | none => rw [hc] at h; simp at h
      | some cs =>
      rw [hc] at h
      dsimp only at h
      obtain ⟨types, hscan, hp, hn, hu⟩ := ih _ _ _ _ h
      refine ⟨0 :: types, ?_, ?_, ?_, ?_⟩
      · simp [mesh_stream_scan, hr1, hr2, Option.bind, h0, hscan,
          readChunks_some_le hc]
      · intro habs
        exact absurd (List.mem_cons_self 0 types) habs
      · intro h1
        rw [hn (fun hm => h1 (List.mem_cons_of_mem _ hm))]
      · intro h2
        rw [hu (fun hm => h2 (List.mem_cons_of_mem _ hm))]
    · rw [if_neg h0] at h
      by_cases h1 : leNat tb = 1
      · rw [if_pos h1] at h
        simp only [readChunksE] at h
        cases hc : readChunks f (pos + 8) vc 12 with
        | none => rw [hc] at h; simp at h
        | some cs =>
        rw [hc] at h
        dsimp only at h
        obtain ⟨types, hscan, hp, hn, hu⟩ := ih _ _ _ _ h
        refine ⟨1 :: types, ?_, ?_, ?_, ?_⟩
        · simp [mesh_stream_scan, hr1, hr2, Option.bind, h0, h1, hscan,
            readChunks_some_le hc]
        · intro hm0
          rw [hp (fun hm => hm0 (List.mem_cons_of_mem _ hm))]
        · intro habs
          exact absurd (List.mem_cons_self 1 types) habs
        · intro h2
          rw [hu (fun hm => h2 (List.mem_cons_of_mem _ hm))]
      · rw [if_neg h1] at h
        by_cases h2 : leNat tb = 2
        · rw [if_pos h2] at h
          simp only [readChunksE] at h
          cases hc : readChunks f (pos + 8) vc 8 with
          | none => rw [hc] at h; simp at h
          | some cs =>
          rw [hc] at h
          dsimp only at h
          obtain ⟨types, hscan, hp, hn, hu⟩ := ih _ _ _ _ h
          refine ⟨2 :: types, ?_, ?_, ?_, ?_⟩
          · simp [mesh_stream_scan, hr1, hr2, Option.bind, h0, h1, h2,
              hscan, readChunks_some_le hc]
          · intro hm0
            rw [hp (fun hm => hm0 (List.mem_cons_of_mem _ hm))]
          · intro hm1
            rw [hn (fun hm => hm1 (List.mem_cons_of_mem _ hm))]
          · intro habs
            exact absurd (List.mem_cons_self 2 types) habs
        · rw [if_neg h2] at h
          by_cases h3 : leNat tb = 3
          · rw [if_pos h3] at h
            simp only [readChunksE] at h
            cases hc : readChunks f (pos + 8) vc 4 with
            | none => rw [hc] at h; simp at h
            | some cs =>
            rw [hc] at h
            dsimp only at h
            obtain ⟨types, hscan, hp, hn, hu⟩ := ih _ _ _ _ h
            refine ⟨3 :: types, ?_, ?_, ?_, ?_⟩
            · simp [mesh_stream_scan, hr1, hr2, Option.bind, h0, h1, h2,
                h3, hscan, readChunks_some_le hc]
            · intro hm0
              rw [hp (fun hm => hm0 (List.mem_cons_of_mem _ hm))]
            · intro hm1
              rw [hn (fun hm => hm1 (List.mem_cons_of_mem _ hm))]
            · intro hm2
              rw [hu (fun hm => hm2 (List.mem_cons_of_mem _ hm))]
          · rw [if_neg h3] at h
            by_cases h12 : leNat tb = 12
            · rw [if_pos h12] at h
              simp only [readChunksE] at h
              cases hc : readChunks f (pos + 8) vc 32 with
              | none => rw [hc] at h; simp at h
              | some cs =>
              rw [hc] at h
              dsimp only at h
              obtain ⟨types, hscan, hp, hn, hu⟩ := ih _ _ _ _ h
              refine ⟨12 :: types, ?_, ?_, ?_, ?_⟩
              · simp [mesh_stream_scan, hr1, hr2, Option.bind, h0, h1,
                  h2, h3, h12, hscan, readChunks_some_le hc]
              · intro hm0
                rw [hp (fun hm => hm0 (List.mem_cons_of_mem _ hm))]
              · intro hm1
                rw [hn (fun hm => hm1 (List.mem_cons_of_mem _ hm))]
              · intro hm2
                rw [hu (fun hm => hm2 (List.mem_cons_of_mem _ hm))]
            · rw [if_neg h12] at h
              obtain ⟨types, hscan, hp, hn, hu⟩ := ih _ _ _ _ h
              refine ⟨leNat tb :: types, ?_, ?_, ?_, ?_⟩
              · have hsb := (readExact_some hr2).1
                simp [mesh_stream_scan, hr1, hr2, Option.bind, h0, h1,
                  h2, h3, h12, ← hsb, hscan]
              · intro hm0
                rw [hp (fun hm => hm0 (List.mem_cons_of_mem _ hm))]
              · intro hm1
                rw [hn (fun hm => hm1 (List.mem_cons_of_mem _ hm))]
              · intro hm2
                rw [hu (fun hm => hm2 (List.mem_cons_of_mem _ hm))]

/-- C3 (amended): a missing position stream is NOT fatal — the compiled
mesh decoder defaults every vertex position to `[0,0,0]` (the
counterexample shows a successful parse without one); a missing normal
stream defaults every vertex normal to `[0,1,0]`, and a missing UV stream
defaults every vertex UV to `[0,0]` (all as IEEE-754 bit patterns).
`types` lists the chunk's declared stream-type codes, recovered by the
ghost scanner from the chunk's 32-byte header `mh`. -/
theorem c3_missing_stream_defaults
    (f : List Nat) (header : ChunkHeader) (mh : List Nat) (m : Mesh)
    (types : List Nat) (endPos : Nat)
    (hmh : readExact f header.offset 32 = some mh)
    (hparse : parse_compiled_mesh_chunk f header = .ok m)
    (hscan : mesh_stream_scan f (u32at mh 4) (u32at mh 16)
      (header.offset + 32) = some (types, endPos)) :
    ((0 : Nat) ∉ types → ∀ v ∈ m.vertices, v.position = [0, 0, 0]) ∧
    ((1 : Nat) ∉ types → ∀ v ∈ m.vertices, v.normal = [0, f32One, 0]) ∧
    ((2 : Nat) ∉ types → ∀ v ∈ m.vertices, v.uv = [[0, 0]]) := by
  unfold parse_compiled_mesh_chunk at hparse
  simp only [readE, bind, Except.bind] at hparse
  rw [hmh] at hparse
  dsimp only at hparse
  cases hs : parse_mesh_streams f (u32at mh 4) (u32at mh 16)
      (header.offset + 32) StreamAcc.empty with
  | error e => rw [hs] at hparse; simp at hparse
  | ok sres =>
  rw [hs] at hparse
  dsimp only at hparse
  obtain ⟨types', hscan', hp, hn, hu⟩ :=
    parse_mesh_streams_scan f (u32at mh 4) (u32at mh 16)
      (header.offset + 32) StreamAcc.empty sres.1 sres.2 hs
  rw [hscan] at hscan'
  obtain ⟨rfl, -⟩ : types' = types ∧ sres.2 = endPos := by
    have := Option.some.inj hscan'
    exact ⟨(Prod.mk.injEq _ _ _ _ ▸ this).1.symm,
           (Prod.mk.injEq _ _ _ _ ▸ this).2.symm⟩
  simp only [readChunksE] at hparse
  cases hfc : readChunks f sres.2 (u32at mh 8 / 3) 12 with
  | none => rw [hfc] at hparse; simp at hparse
  | some faceChunks =>
  rw [hfc] at hparse
  dsimp only at hparse
  cases hsc : readChunks f (sres.2 + u32at mh 8 / 3 * 12)
      (u32at mh 12) 16 with
  | none => rw [hsc] at hparse; simp at hparse
  | some subsetChunks =>
  rw [hsc] at hparse
  dsimp only at hparse
  have hm := (Except.ok.inj hparse).symm
  subst hm
  refine ⟨?_, ?_, ?_⟩
  · intro h0 v hv
    rw [hp h0] at hv
    simp only [List.mem_map] at hv
    obtain ⟨i, -, rfl⟩ := hv
    simp [StreamAcc.empty]
  · intro h1 v hv
    rw [hn h1] at hv
    simp only [List.mem_map] at hv
    obtain ⟨i, -, rfl⟩ := hv
    simp only [StreamAcc.empty, List.isEmpty_nil, if_true]
    exact getD_get?_replicate _ i _
  · intro h2 v hv
    rw [hu h2] at hv
    simp only [List.mem_map] at hv
    obtain ⟨i, -, rfl⟩ := hv
    simp only [StreamAcc.empty, List.isEmpty_nil, if_true]
    rw [getD_get?_replicate _ i _]

/-- Witness for C3: the zero-stream chunk's single vertex carries all
three defaults, obtained from the theorem at that concrete chunk. -/
theorem c3_missing_stream_defaults_witness :
    c3Vertex.position = [0, 0, 0] ∧ c3Vertex.normal = [0, f32One, 0] ∧
    c3Vertex.uv = [[0, 0]] := by
  have h := c3_missing_stream_defaults c3Bytes c3Hdr (c3Bytes.take 32)
    c3Mesh [] 32 (by decide) (by decide) (by decide)
  exact ⟨h.1 (by decide) c3Vertex (by decide),
         h.2.1 (by decide) c3Vertex (by decide),
         h.2.2 (by decide) c3Vertex (by decide)⟩

/-- Removing a key from the cache map only drops bindings. -/
lemma cacheRemove_fst_sublist (m : List (String × CacheEntry))
    (k : String) :
    ((cacheRemove m k).map Prod.fst).Sublist (m.map Prod.fst) :=
  List.Sublist.map Prod.fst (List.eraseP_sublist m)

/-- With distinct keys, removing a key really removes it. -/
lemma not_mem_cacheRemove {m : List (String × CacheEntry)} {k : String}
    (hnd : (m.map Prod.fst).Nodup) :
    k ∉ (cacheRemove m k).map Prod.fst := by
  induction m with
  | nil => simp [cacheRemove]
  | cons p rest ih =>
    simp only [List.map_cons, List.nodup_cons] at hnd
    by_cases hp : p.1 = k
    · have hrw : cacheRemove (p :: rest) k = rest := by
        simp [cacheRemove, List.eraseP_cons, hp]
      rw [hrw, ← hp]
      exact hnd.1
    · have hrw : cacheRemove (p :: rest) k = p :: cacheRemove rest k := by
        simp [cacheRemove, List.eraseP_cons, hp]
      rw [hrw]
      simp only [List.map_cons, List.mem_cons]
      rintro (heq | hmem)
      · exact hp heq.symm
      · exact ih hnd.2 hmem

/-- Removing a found binding removes exactly its size from the byte
total. -/
lemma totalBytes_cacheRemove {m : List (String × CacheEntry)}
    {k : String} {e : CacheEntry} (h : cacheLookup m k = some e) :
    ((cacheRemove m k).map (fun p => p.2.size)).sum + e.size =
      (m.map (fun p => p.2.size)).sum := by
  induction m with
  | nil => simp [cacheLookup] at h
  | cons p rest ih =>
    by_cases hp : p.1 = k
    · have he : p.2 = e := by
        have hfind : List.find? (fun q => q.1 == k) (p :: rest) = some p :=
          List.find?_cons_of_pos _ (by simp [hp])
        unfold cacheLookup at h
        rw [hfind] at h
        simpa using h
      have hbeq : (p.1 == k) = true := by simp [hp]
      simp only [cacheRemove, List.eraseP_cons, hbeq, cond_true,
        List.map_cons, List.sum_cons, he]
      omega
    · have h' : cacheLookup rest k = some e := by
        unfold cacheLookup at h ⊢
        rw [List.find?_cons_of_neg _ (by simp [hp])] at h
        exact h
      have hih := ih h'
      have hbeq : (p.1 == k) = false := by simp [hp]
      simp only [cacheRemove, List.eraseP_cons, hbeq, cond_false,
        List.map_cons, List.sum_cons]
      simp only [cacheRemove] at hih
      omega

/-- A key that is mapped cannot look up to nothing. -/
lemma mem_of_cacheLookup_none {m : List (String × CacheEntry)}
    {k : String} (h : cacheLookup m k = none) : k ∉ m.map Prod.fst := by
  intro hmem
  obtain ⟨p, hpm, hpk⟩ := List.mem_map.mp hmem
  unfold cacheLookup at h
  rw [Option.map_eq_none'] at h
  exact absurd (by simp [hpk]) (List.find?_eq_none.mp h p hpm)

/-- The eviction loop: it preserves the key/order and accounting
invariants, never increases the held byte total, and stops only when the
new entry fits or the recency list is exhausted. -/
lemma evictGo_spec (max size : Nat) :
    ∀ (order : List String) (entries : List (String × CacheEntry))
      (current : Nat),
      (∀ k ∈ entries.map Prod.fst, k ∈ order) →
      (entries.map Prod.fst).Nodup →
      (entries.map (fun p => p.2.size)).sum ≤ current →
      ((∀ k ∈ (evictGo max size entries order current).1.map Prod.fst,
          k ∈ (evictGo max size entries order current).2.1) ∧
       ((evictGo max size entries order current).1.map Prod.fst).Nodup ∧
       ((evictGo max size entries order current).1.map
          (fun p => p.2.size)).sum ≤
         (evictGo max size entries order current).2.2 ∧
       ((evictGo max size entries order current).1.map
          (fun p => p.2.size)).sum ≤
         (entries.map (fun p => p.2.size)).sum ∧
       ((evictGo max size entries order current).2.2 + size ≤ max ∨
        (evictGo max size entries order current).2.1 = [])) := by
  intro order
  induction order with
  | nil =>
    intro entries current hkeys hnd hsz
    exact ⟨hkeys, hnd, hsz, le_refl _, Or.inr rfl⟩
  | cons oldest rest ih =>
    intro entries current hkeys hnd hsz
    simp only [evictGo]
    by_cases hcond : current + size > max
    · rw [if_pos hcond]
      cases hlk : cacheLookup entries oldest with
      | some entry =>
        dsimp only
        have hk' : ∀ k ∈ (cacheRemove entries oldest).map Prod.fst,
            k ∈ rest := by
          intro k hk
          have hkm : k ∈ entries.map Prod.fst :=
            (cacheRemove_fst_sublist entries oldest).subset hk
          rcases List.mem_cons.mp (hkeys k hkm) with heq | hmem
          · exact absurd (heq ▸ hk) (not_mem_cacheRemove hnd)
          · exact hmem
        have hnd' : ((cacheRemove entries oldest).map Prod.fst).Nodup :=
          (cacheRemove_fst_sublist entries oldest).nodup hnd
        have htb := totalBytes_cacheRemove hlk
        have hsz' : ((cacheRemove entries oldest).map
            (fun p => p.2.size)).sum ≤ current - entry.size := by omega
        obtain ⟨a, b, cc, d, e⟩ :=
          ih (cacheRemove entries oldest) (current - entry.size) hk' hnd'
            hsz'
        exact ⟨a, b, cc, by omega, e⟩
      | none =>
        dsimp only
        have hk' : ∀ k ∈ entries.map Prod.fst, k ∈ rest := by
          intro k hk
          rcases List.mem_cons.mp (hkeys k hk) with heq | hmem
          · exact absurd (heq ▸ hk) (mem_of_cacheLookup_none hlk)
          · exact hmem
        exact ih entries current hk' hnd hsz
    · rw [if_neg hcond]
      exact ⟨hkeys, hnd, hsz, le_refl _,
        Or.inl (show current + size ≤ max by omega)⟩

/-- Keys after a replacing insert are the original keys. -/
lemma replaceKeys_map_fst (m : List (String × CacheEntry)) (k : String)
    (v : CacheEntry) :
    ((m.map (fun p => if p.1 == k then (k, v) else p)).map Prod.fst) =
      m.map Prod.fst := by
  induction m with
  | nil => rfl
  | cons p rest ih =>
    simp only [List.map_cons, ih]
    congr 1
    by_cases hp : p.1 = k <;> simp [hp]

/-- Keys after an insert: unchanged on replacement, appended on a fresh
key. -/
lemma cacheInsert_fst (m : List (String × CacheEntry)) (k : String)
    (v : CacheEntry) :
    (cacheInsert m k v).map Prod.fst =
      if m.any (fun p => p.1 == k) then m.map Prod.fst
      else m.map Prod.fst ++ [k] := by
  unfold cacheInsert
  split
  · exact replaceKeys_map_fst m k v
  · simp

/-- If a key is absent from a map's keys, the replacing traversal is the
identity. -/
lemma replace_of_not_mem (rest : List (String × CacheEntry)) (k : String)
    (v : CacheEntry) (habs : k ∉ rest.map Prod.fst) :
    rest.map (fun p => if p.1 == k then (k, v) else p) = rest := by
  induction rest with
  | nil => rfl
  | cons q qs ih =>
    simp only [List.map_cons, List.mem_cons] at habs ⊢
    have hq : q.1 ≠ k := fun he => habs (Or.inl he.symm)
    rw [if_neg (by simp [hq])]
    exact congrArg (q :: ·) (ih (fun hm => habs (Or.inr hm)))

/-- Replacing a binding adds at most the new entry's size (keys
distinct). -/
lemma totalBytes_replace_le (m : List (String × CacheEntry)) (k : String)
    (v : CacheEntry) (hnd : (m.map Prod.fst).Nodup) :
    (((m.map (fun p => if p.1 == k then (k, v) else p)).map
      (fun p => p.2.size)).sum) ≤
      (m.map (fun p => p.2.size)).sum + v.size := by
  induction m with
  | nil => simp
  | cons p rest ih =>
    simp only [List.map_cons, List.nodup_cons] at hnd
    simp only [List.map_cons, List.sum_cons]
    by_cases hp : p.1 = k
    · have hbeq : (p.1 == k) = true := by simp [hp]
      have hrest : rest.map (fun p => if p.1 == k then (k, v) else p) =
          rest := replace_of_not_mem rest k v (hp ▸ hnd.1)
      rw [if_pos hbeq, hrest]
      have hkv : ((k, v).2).size = v.size := rfl
      omega
    · rw [if_neg (by simp [hp])]
      have := ih hnd.2
      omega

/-- Inserting a binding adds at most the new entry's size (keys
distinct). -/
lemma totalBytes_cacheInsert_le (m : List (String × CacheEntry))
    (k : String) (v : CacheEntry) (hnd : (m.map Prod.fst).Nodup) :
    ((cacheInsert m k v).map (fun p => p.2.size)).sum ≤
      (m.map (fun p => p.2.size)).sum + v.size := by
  unfold cacheInsert
  split
  · exact totalBytes_replace_le m k v hnd
  · simp

/-- When `any` fails to find a key it is not among the mapped keys. -/
lemma not_mem_of_any_false {m : List (String × CacheEntry)} {k : String}
    (h : m.any (fun p => p.1 == k) = false) : k ∉ m.map Prod.fst := by
  intro hmem
  obtain ⟨p, hpm, hpk⟩ := List.mem_map.mp hmem
  exact absurd (by simp [hpk]) (List.any_eq_false.mp h p hpm)

/-- `LruCache::insert` preserves the cache invariant. -/
lemma insert_Inv (c : LruCache) (key : String) (data : List Nat)
    (h : c.Inv) : (c.insert key data).Inv := by
  obtain ⟨hkeys, hnd, hcur, hmax⟩ := h
  unfold LruCache.insert LruCache.evictLoop
  dsimp only
  obtain ⟨ek, en, ec, ea, ep⟩ := evictGo_spec c.max_size_bytes data.length
    c.order c.entries c.current_size hkeys hnd hcur
  by_cases hfit : data.length ≤ c.max_size_bytes
  · rw [if_pos hfit]
    unfold LruCache.Inv LruCache.totalBytes
    dsimp only
    refine ⟨?_, ?_, ?_, ?_⟩
    · intro k hk
      rw [cacheInsert_fst] at hk
      split at hk
      · exact List.mem_append_left _ (ek k hk)
      · rcases List.mem_append.mp hk with hmem | hsingle
        · exact List.mem_append_left _ (ek k hmem)
        · exact List.mem_append_right _ hsingle
    · rw [cacheInsert_fst]
      split
      · exact en
      · rename_i han
        refine List.Nodup.append en (List.nodup_singleton _) ?_
        intro x hx hx'
        rw [List.mem_singleton] at hx'
        subst hx'
        have hxo := ek x hx
        rw [Bool.not_eq_true] at han
        exact absurd hx (not_mem_of_any_false han)
    · have h1 := totalBytes_cacheInsert_le
        (evictGo c.max_size_bytes data.length c.entries c.order
          c.current_size).1 key ⟨data, data.length⟩ en
      dsimp only at h1
      omega
    · rcases ep with hfits | hempty
      · have h1 := totalBytes_cacheInsert_le
          (evictGo c.max_size_bytes data.length c.entries c.order
            c.current_size).1 key ⟨data, data.length⟩ en
        dsimp only at h1
        omega
      · have hmapnil : ((evictGo c.max_size_bytes data.length c.entries
            c.order c.current_size).1.map Prod.fst) = [] := by
          cases hE : (evictGo c.max_size_bytes data.length c.entries
              c.order c.current_size).1 with
          | nil => rfl
          | cons p ps =>
            have hm : p.1 ∈ (evictGo c.max_size_bytes data.length
                c.entries c.order c.current_size).1.map Prod.fst := by
              rw [hE]; simp
            have := ek p.1 hm
            rw [hempty] at this
            simp at this
        have hnil : (evictGo c.max_size_bytes data.length c.entries
            c.order c.current_size).1 = [] :=
          List.map_eq_nil.mp hmapnil
        rw [hnil]
        have : cacheInsert [] key ⟨data, data.length⟩ =
            [(key, ⟨data, data.length⟩)] := by
          simp [cacheInsert]
        rw [this]
        simpa using hfit
  · rw [if_neg hfit]
    exact ⟨ek, en, ec, le_trans ea hmax⟩

/-- `LruCache::get` preserves the cache invariant. -/
lemma get_Inv (c : LruCache) (key : String) (h : c.Inv) :
    ((c.get key).2).Inv := by
  obtain ⟨hkeys, hnd, hcur, hmax⟩ := h
  unfold LruCache.get
  cases hlk : cacheLookup c.entries key with
  | none => exact ⟨hkeys, hnd, hcur, hmax⟩
  | some entry =>
    dsimp only
    refine ⟨?_, hnd, hcur, hmax⟩
    intro k hk
    dsimp only
    split
    · by_cases hkk : k = key
      · subst hkk
        exact List.mem_append_right _ (List.mem_singleton_self _)
      · exact List.mem_append_left _
          ((List.mem_erase_of_ne hkk).mpr (hkeys k hk))
    · exact hkeys k hk

/-- One cache operation preserves the invariant. -/
lemma applyOp_Inv (c : LruCache) (op : CacheOp) (h : c.Inv) :
    (c.applyOp op).Inv := by
  cases op with
  | get k => exact get_Inv c k h
  | insert k d => exact insert_Inv c k d h

/-- Cache operations never change the configured cap. -/
lemma applyOp_max (c : LruCache) (op : CacheOp) :
    (c.applyOp op).max_size_bytes = c.max_size_bytes := by
  cases op with
  | get k =>
    show ((c.get k).2).max_size_bytes = c.max_size_bytes
    unfold LruCache.get
    cases cacheLookup c.entries k <;> rfl
  | insert k d =>
    show ((c.insert k d)).max_size_bytes = c.max_size_bytes
    unfold LruCache.insert LruCache.evictLoop
    dsimp only
    split <;> rfl

/-- Folding cache operations preserves the invariant and the cap. -/
lemma foldl_Inv (ops : List CacheOp) :
    ∀ (c : LruCache), c.Inv →
      (ops.foldl LruCache.applyOp c).Inv ∧
      (ops.foldl LruCache.applyOp c).max_size_bytes = c.max_size_bytes := by
  induction ops with
  | nil => intro c h; exact ⟨h, rfl⟩
  | cons op rest ih =>
    intro c h
    obtain ⟨h1, h2⟩ := ih (c.applyOp op) (applyOp_Inv c op h)
    exact ⟨h1, h2.trans (applyOp_max c op)⟩

/-- A fresh cache satisfies the invariant. -/
lemma new_Inv (cap : Nat) : (LruCache.new cap).Inv := by
  unfold LruCache.Inv LruCache.new LruCache.totalBytes
  refine ⟨?_, ?_, ?_, ?_⟩ <;> simp

/-- C9: after every sequence of get/insert operations, the byte total of
the cached entries stays within the configured cap; an insertion first
runs the eviction loop until the new entry fits or the cache is empty;
and an entry larger than the cap is never inserted (the insertion leaves
the entry map empty). -/
theorem c9_lru_cache_byte_cap (cap : Nat) (ops : List CacheOp) :
    (LruCache.runOps cap ops).totalBytes ≤ cap ∧
    (∀ data : List Nat,
      ((LruCache.runOps cap ops).evictLoop data.length).current_size +
          data.length ≤ cap ∨
        ((LruCache.runOps cap ops).evictLoop data.length).order = []) ∧
    (∀ (key : String) (data : List Nat), data.length > cap →
      ((LruCache.runOps cap ops).insert key data).entries = []) := by
  obtain ⟨hinv, hmax⟩ := foldl_Inv ops (LruCache.new cap) (new_Inv cap)
  have hcap : (LruCache.runOps cap ops).max_size_bytes = cap := hmax
  obtain ⟨hkeys, hnd, hcur, hmaxtb⟩ := hinv
  refine ⟨le_of_le_of_eq hmaxtb hcap, ?_, ?_⟩
  · intro data
    obtain ⟨ek, en, ec, ea, ep⟩ := evictGo_spec
      (LruCache.runOps cap ops).max_size_bytes data.length
      (LruCache.runOps cap ops).order (LruCache.runOps cap ops).entries
      (LruCache.runOps cap ops).current_size hkeys hnd hcur
    unfold LruCache.evictLoop
    dsimp only
    rcases ep with h | h
    · left; exact le_of_le_of_eq h hcap
    · right; exact h
  · intro key data hbig
    obtain ⟨ek, en, ec, ea, ep⟩ := evictGo_spec
      (LruCache.runOps cap ops).max_size_bytes data.length
      (LruCache.runOps cap ops).order (LruCache.runOps cap ops).entries
      (LruCache.runOps cap ops).current_size hkeys hnd hcur
    have horder : (evictGo (LruCache.runOps cap ops).max_size_bytes
        data.length (LruCache.runOps cap ops).entries
        (LruCache.runOps cap ops).order
        (LruCache.runOps cap ops).current_size).2.1 = [] := by
      rcases ep with h | h
      · rw [hcap] at h; omega
      · exact h
    have hent : (evictGo (LruCache.runOps cap ops).max_size_bytes
        data.length (LruCache.runOps cap ops).entries
        (LruCache.runOps cap ops).order
        (LruCache.runOps cap ops).current_size).1 = [] := by
      cases hE : (evictGo (LruCache.runOps cap ops).max_size_bytes
          data.length (LruCache.runOps cap ops).entries
          (LruCache.runOps cap ops).order
          (LruCache.runOps cap ops).current_size).1 with
      | nil => rfl
      | cons p ps =>
        have hm : p.1 ∈ (evictGo (LruCache.runOps cap ops).max_size_bytes
            data.length (LruCache.runOps cap ops).entries
            (LruCache.runOps cap ops).order
            (LruCache.runOps cap ops).current_size).1.map Prod.fst := by
          rw [hE]; simp
        have := ek p.1 hm
        rw [horder] at this
        simp at this
    unfold LruCache.insert LruCache.evictLoop
    dsimp only
    rw [if_neg (by rw [hcap]; omega)]
    exact hent

/-- Witness for C9: a concrete run stays within its 10-byte cap, and an
11-byte entry is refused. -/
theorem c9_lru_cache_byte_cap_witness :
    (LruCache.runOps 10 [CacheOp.insert "a" [1, 2, 3]]).totalBytes ≤ 10 ∧
    ((LruCache.runOps 10 [CacheOp.insert "a" [1, 2, 3]]).insert "b"
        (List.replicate 11 0)).entries = [] :=
  ⟨(c9_lru_cache_byte_cap 10 [CacheOp.insert "a" [1, 2, 3]]).1,
   (c9_lru_cache_byte_cap 10 [CacheOp.insert "a" [1, 2, 3]]).2.2 "b"
     (List.replicate 11 0) (by decide)⟩

end StarBreaker
